import Mathlib

/-!
# fetch_records.js: paginated scraper

A shallow embedding of `src/fetch_records.js` and proofs about it.

* JavaScript strings are lists of characters (`Str`).  The two regular
  expressions of `extractData` only mention ASCII literals and the classes
  `[^>]` and `[\s\S]`, so matching by code point and by UTF-16 code unit agree.
* Regular expressions are run by a small backtracking matcher with the
  ECMAScript priorities (greedy `*` tries the longest repetition first, lazy
  `*?` the shortest first, the leftmost start position wins).
* Numbers are binary64 values: the page count, the loop counter and the start
  rows are computed with rounding to nearest, ties to even (`Num`).
* An awaited promise resolves, rejects or never settles (`Settled`).
* Effects of `getAllRecords` (console, network, file, timer) are recorded in an
  explicit run state: an event trace, the content of `member_records.txt` and
  the accumulated array `allData`.  The network, the outcome of each file write
  and the engine's limit on spread arguments are parameters of the run
  (`World`).  The loop of `getAllRecords` is run with fuel; `none` stands for a
  run that has not ended.
-/

namespace FetchRecords

set_option exponentiation.threshold 2048

/-! ## Strings -/

/-- A JavaScript string value. -/
abbrev Str := List Char

/-- The characters removed by `String.prototype.trim`: ECMAScript `WhiteSpace`
and `LineTerminator` code points. -/
def isTrimChar (c : Char) : Bool :=
  let n := c.toNat
  n == 0x09 || n == 0x0A || n == 0x0B || n == 0x0C || n == 0x0D || n == 0x20 ||
  n == 0xA0 || n == 0x1680 || (0x2000 ≤ n && n ≤ 0x200A) || n == 0x2028 ||
  n == 0x2029 || n == 0x202F || n == 0x205F || n == 0x3000 || n == 0xFEFF

/-- The method `String.prototype.trim`. -/
def trim (s : Str) : Str :=
  ((s.dropWhile isTrimChar).reverse.dropWhile isTrimChar).reverse

/-! ## Numbers

The Numbers of the script are binary64 values.  The constants, the loop counter
and the start rows are non-negative integers, so a Number is kept as its
integer value (or `Infinity`, or `NaN`) and every operation rounds to the
nearest binary64 value, ties to even.  Only the quotient inside
`Math.ceil(TOTAL_RECORDS / RECORDS_PER_PAGE)` is a fraction; it is rounded as
`m * 2 ^ u` before the ceiling is taken. -/

/-- Auxiliary loop of `ilog2`. -/
def ilog2Loop : Nat → Nat → Nat
  | 0, _ => 0
  | fuel + 1, n => if n < 2 then 0 else ilog2Loop fuel (n / 2) + 1

/-- The binary exponent of a positive integer: `2 ^ ilog2 n <= n < 2 ^ (ilog2 n + 1)`. -/
def ilog2 (n : Nat) : Nat := ilog2Loop n n

/-- The integer nearest to `N / D`, ties to the even one. -/
def roundHalfEven (N D : Nat) : Nat :=
  let q := N / D
  let r := N % D
  if 2 * r < D then q
  else if D < 2 * r then q + 1
  else if q % 2 = 0 then q else q + 1

/-- The binary64 value nearest to the integer `n` (round to nearest, ties to
even), as an integer; it is below `2 ^ 1024` exactly when it is finite. -/
def roundNat (n : Nat) : Nat :=
  let e := ilog2 n
  if e ≤ 52 then n else roundHalfEven n (2 ^ (e - 52)) * 2 ^ (e - 52)

/-- The Number values that occur in the script: the binary64 values that are
non-negative integers, `Infinity` and `NaN`. -/
inductive Num
  | int (n : Nat)
  | inf
  | nan
deriving DecidableEq, Repr

/-- The Number that an integer literal or an exact integer result rounds to. -/
def Num.ofNat (n : Nat) : Num :=
  if roundNat n < 2 ^ 1024 then .int (roundNat n) else .inf

/-- The operator `*` on these Numbers. -/
def Num.mul : Num → Num → Num
  | .int a, .int b => Num.ofNat (a * b)
  | .int a, .inf => if a = 0 then .nan else .inf
  | .inf, .int b => if b = 0 then .nan else .inf
  | .inf, .inf => .inf
  | _, _ => .nan

/-- The operator `+` on these Numbers. -/
def Num.add : Num → Num → Num
  | .int a, .int b => Num.ofNat (a + b)
  | .nan, _ => .nan
  | _, .nan => .nan
  | _, _ => .inf

/-- The operator `<=` on these Numbers. -/
def Num.le : Num → Num → Bool
  | .int a, .int b => a ≤ b
  | .int _, .inf => true
  | .inf, .inf => true
  | _, _ => false

/-- The binary exponent `e` of the positive quotient `a / b`:
`2 ^ e <= a / b < 2 ^ (e + 1)`. -/
def quotExp (a b : Nat) : Int :=
  let d : Int := (ilog2 a : Int) - (ilog2 b : Int)
  if a * 2 ^ ilog2 b < b * 2 ^ ilog2 a then d - 1 else d

/-- The binary64 value of `a / b` for positive integers `a` and `b`, as
`(m, u)` standing for `m * 2 ^ u`: the quotient rounded to nearest, ties to
even, to 53 significant bits, or to a multiple of `2 ^ (-1074)` in the
subnormal range. -/
def roundQuot (a b : Nat) : Nat × Int :=
  let u : Int := max (quotExp a b - 52) (-1074)
  if 0 ≤ u then (roundHalfEven a (b * 2 ^ u.toNat), u)
  else (roundHalfEven (a * 2 ^ (-u).toNat) b, u)

/-- The function `Math.ceil` on the value `m * 2 ^ u`. -/
def ceilScaled (v : Nat × Int) : Nat :=
  if 0 ≤ v.2 then v.1 * 2 ^ v.2.toNat
  else (v.1 + 2 ^ (-v.2).toNat - 1) / 2 ^ (-v.2).toNat

/-- The expression `Math.ceil(a / b)`: the binary64 quotient, then its ceiling. -/
def Num.ceilDiv : Num → Num → Num
  | .int a, .int b =>
    if b = 0 then (if a = 0 then .nan else .inf)
    else if a = 0 then .int 0
    else .int (ceilScaled (roundQuot a b))
  | .int _, .inf => .int 0
  | .inf, .int _ => .inf
  | _, _ => .nan

/-- Drop the trailing zeros of a digit count: `(s, p)` stands for `s * 10 ^ p`. -/
def stripZeros : Nat → Nat → Nat → Nat × Nat
  | 0, s, p => (s, p)
  | fuel + 1, s, p => if s ≠ 0 ∧ s % 10 = 0 then stripZeros fuel (s / 10) (p + 1) else (s, p)

/-- The digit strings `s * 10 ^ p` with `k` significant digits that read back
as the Number `x`, the nearest to `x` first (the even one on a tie). -/
def digitCandidates (x k : Nat) : List (Nat × Nat) :=
  let len := (Nat.toDigits 10 x).length
  let p := len - k
  let lo := x / 10 ^ p
  let hi := lo + 1
  let dLo := x - lo * 10 ^ p
  let dHi := hi * 10 ^ p - x
  let cs := if dLo < dHi ∨ (dLo = dHi ∧ lo % 2 = 0) then [lo, hi] else [hi, lo]
  (cs.filter (fun s => roundNat (s * 10 ^ p) = x)).map (fun s => (s, p))

/-- The shortest digit string that reads back as `x`: the search over the
number of digits `k = 1, 2, ...`. -/
def shortestDigits (x : Nat) : Nat → Nat → Nat × Nat
  | 0, _ => (x, 0)
  | fuel + 1, k =>
    match digitCandidates x k with
    | c :: _ => stripZeros 400 c.1 c.2
    | [] => shortestDigits x fuel (k + 1)

/-- The conversion of a Number to a string (template literals,
`URLSearchParams.append`).  Below `2 ^ 53` every integer is a Number and the
result is the decimal expansion; above, it is the shortest digit string that
reads back as the same Number, in exponent form from `1e21` on. -/
def numToStr : Num → Str
  | .nan => "NaN".toList
  | .inf => "Infinity".toList
  | .int n =>
    if n < 2 ^ 53 then Nat.toDigits 10 n
    else
      let sp := shortestDigits n 17 1
      let ds := Nat.toDigits 10 sp.1
      let e := ds.length + sp.2
      if e ≤ 21 then ds ++ List.replicate sp.2 '0'
      else
        match ds with
        | [] => []
        | [d] => d :: "e+".toList ++ Nat.toDigits 10 (e - 1)
        | d :: rest => d :: '.' :: rest ++ "e+".toList ++ Nat.toDigits 10 (e - 1)

/-! ## Regular expressions -/

/-- A one-character matcher: a literal, a negated one-character class `[^c]`,
or a class matching every character such as `[\s\S]`. -/
inductive CharClass
  | lit (c : Char)
  | notLit (c : Char)
  | any
deriving DecidableEq, Repr

/-- Does the class accept the character? -/
def CharClass.test : CharClass → Char → Bool
  | .lit c, x => x == c
  | .notLit c, x => x != c
  | .any, _ => true

/-- The fragment of ECMAScript regular expressions used by the script. -/
inductive Regex
  | eps
  | char (cls : CharClass)
  | star (cls : CharClass)
  | starLazy (cls : CharClass)
  | group (r : Regex)
  | seq (r₁ r₂ : Regex)
deriving Repr

/-- A run of literal characters followed by `r`. -/
def Regex.lits (cs : Str) (r : Regex) : Regex :=
  cs.foldr (fun c acc => Regex.seq (Regex.char (CharClass.lit c)) acc) r

/-- Greedy repetition `cls*` with continuation `k`: consume as long as
possible, give back one character at a time while `k` fails. -/
def greedyLoop {α : Type} (p : Char → Bool) (k : Str → Option α) : Str → Option α
  | [] => k []
  | c :: t =>
    if p c then
      match greedyLoop p k t with
      | some r => some r
      | none => k (c :: t)
    else k (c :: t)

/-- Lazy repetition `cls*?` with continuation `k`: try `k` first, consume one
more character only when `k` fails. -/
def lazyLoop {α : Type} (p : Char → Bool) (k : Str → Option α) : Str → Option α
  | [] => k []
  | c :: t =>
    match k (c :: t) with
    | some r => some r
    | none => if p c then lazyLoop p k t else none

/-- Backtracking matcher in continuation-passing style.  `s` is the input that
is left, `caps` the texts captured so far (group 1 first); `k` is the rest of
the pattern and answers `none` to make the matcher backtrack. -/
def Regex.run {α : Type} : Regex → Str → List Str → (Str → List Str → Option α) → Option α
  | .eps, s, caps, k => k s caps
  | .char cls, s, caps, k =>
    match s with
    | [] => none
    | c :: t => if cls.test c then k t caps else none
  | .star cls, s, caps, k => greedyLoop cls.test (fun s' => k s' caps) s
  | .starLazy cls, s, caps, k => lazyLoop cls.test (fun s' => k s' caps) s
  | .group r, s, caps, k =>
    r.run s caps (fun s' caps' => k s' (caps' ++ [s.take (s.length - s'.length)]))
  | .seq r₁ r₂, s, caps, k => r₁.run s caps (fun s' caps' => r₂.run s' caps' k)

/-- One match: the matched text (index 0 of the JavaScript match array) and the
captured groups (index 1, 2, ...). -/
structure MatchResult where
  whole : Str
  groups : List Str
deriving DecidableEq, Repr

/-- Indexing `m[i]` of a match array; `none` stands for `undefined`. -/
def MatchResult.get? (m : MatchResult) : Nat → Option Str
  | 0 => some m.whole
  | i + 1 => m.groups.get? i

/-- Try to match at the very start of `s`: the input left after the match and
the captures. -/
def Regex.matchAt (re : Regex) (s : Str) : Option (Str × List Str) :=
  re.run s [] (fun s' caps => some (s', caps))

/-- The loop of a global (`g`) regular expression over the input left: the
leftmost match is taken, the search resumes where it ended (one character
further after an empty match), and a failed start position is skipped. -/
def Regex.execLoop (re : Regex) : Nat → Str → List MatchResult
  | 0, _ => []
  | fuel + 1, s =>
    match re.matchAt s with
    | some (rest, caps) =>
      let m : MatchResult := ⟨s.take (s.length - rest.length), caps⟩
      if rest.length < s.length then m :: re.execLoop fuel rest
      else
        match s with
        | [] => [m]
        | _ :: t => m :: re.execLoop fuel t
    | none =>
      match s with
      | [] => []
      | _ :: t => re.execLoop fuel t

/-- All matches of a global regular expression, as `String.prototype.matchAll`
yields them.  Every iteration of `execLoop` shortens the input left, so
`s.length + 1` iterations always suffice (`execLoop_fuel`). -/
def matchAll (re : Regex) (s : Str) : List MatchResult :=
  re.execLoop (s.length + 1) s

/-- The method `String.prototype.match` with a global regular expression: the
matched texts, or `null` (here `none`) when there is no match. -/
def strMatch (re : Regex) (s : Str) : Option (List Str) :=
  match matchAll re s with
  | [] => none
  | ms => some (ms.map MatchResult.whole)

/-! ## The script -/

/-- A JavaScript `Error` value with its message. -/
structure JSError where
  message : Str
deriving DecidableEq, Repr

/-- The object literal pushed by `extractData`. -/
structure Record where
  column1 : Str
  column2 : Str
  column3 : Str
  column4 : Str
deriving DecidableEq, Repr

/-- The pattern `/<tr[^>]*>[\s\S]*?<\/tr>/g`. -/
def rowRegex : Regex :=
  Regex.lits "<tr".toList
    (Regex.seq (Regex.star (CharClass.notLit '>'))
      (Regex.seq (Regex.char (CharClass.lit '>'))
        (Regex.seq (Regex.starLazy CharClass.any)
          (Regex.lits "</tr>".toList Regex.eps))))

/-- The pattern `/<td[^>]*>([\s\S]*?)<\/td>/g`. -/
def cellRegex : Regex :=
  Regex.lits "<td".toList
    (Regex.seq (Regex.star (CharClass.notLit '>'))
      (Regex.seq (Regex.char (CharClass.lit '>'))
        (Regex.seq (Regex.group (Regex.starLazy CharClass.any))
          (Regex.lits "</td>".toList Regex.eps))))

/-- The callback `match => match[1].trim()`; calling `trim` on `undefined`
throws a `TypeError`. -/
def cellText (m : MatchResult) : Except JSError Str :=
  match m.get? 1 with
  | some g => .ok (trim g)
  | none => .error ⟨"TypeError: Cannot read properties of undefined".toList⟩

/-- The expression `[...row.matchAll(cellRegex)].map(match => match[1].trim())`. -/
def rowCells (row : Str) : Except JSError (List Str) :=
  (matchAll cellRegex row).mapM cellText

/-- The body of the loop `for (const row of rows)`, on the array `data`. -/
def extractStep (data : List Record) (row : Str) : Except JSError (List Record) :=
  match rowCells row with
  | .error e => .error e
  | .ok cells =>
    if h : 4 ≤ cells.length then
      .ok (data ++ [⟨cells[0], cells[1], cells[2], cells[3]⟩])
    else .ok data

/-- The function `extractData(html)`. -/
def extractData (html : Str) : Except JSError (List Record) :=
  let rows := (strMatch rowRegex html).getD []
  rows.foldlM extractStep []

/-- The constants at the head of the script; the two counts are the integer
literals written in the source. -/
structure Config where
  TARGET_URL : Str
  PLACEHOLDER_COOKIE : Str
  TOTAL_RECORDS : Nat
  RECORDS_PER_PAGE : Nat
  SORT_COLUMN : Str
  SORT_ORDER : Str
deriving DecidableEq, Repr

/-- The values the constants have in the source file. -/
def sourceConfig : Config where
  TARGET_URL := "https://example.com/someEndpoint".toList
  PLACEHOLDER_COOKIE := "YOUR_COOKIE_HERE".toList
  TOTAL_RECORDS := 100
  RECORDS_PER_PAGE := 50
  SORT_COLUMN := "LastName".toList
  SORT_ORDER := "ASC".toList

/-- How an awaited promise ends: it resolves with a value, rejects with an
error, or never settles. -/
inductive Settled (α : Type)
  | resolved (value : α)
  | rejected (error : JSError)
  | pending
deriving DecidableEq, Repr

/-- The argument of one call of `fetch`: target, method, headers and the
entries of the `URLSearchParams` body. -/
structure Request where
  url : Str
  method : Str
  headers : List (Str × Str)
  body : List (Str × Str)
deriving DecidableEq, Repr

/-- What `fetch` resolves to: the status code, and how the promise returned by
`response.text()` ends. -/
structure Response where
  status : Nat
  text : Settled Str
deriving DecidableEq, Repr

/-- The getter `response.ok` of the fetch API: the status is in the range
200 to 299. -/
def Response.ok (r : Response) : Bool := 200 ≤ r.status && r.status < 300

/-- The network seen by the script: how the promise of `fetch` ends for each
request. -/
abbrev Network := Request → Settled Response

/-- The request built by `fetchPage(startRow)`. -/
def pageRequest (cfg : Config) (startRow : Num) : Request where
  url := cfg.TARGET_URL
  method := "POST".toList
  headers :=
    [("Content-Type".toList, "application/x-www-form-urlencoded".toList),
     ("Cookie".toList, cfg.PLACEHOLDER_COOKIE),
     ("User-Agent".toList, "Mozilla/5.0 (compatible; NodeFetchBot/1.0)".toList)]
  body :=
    [("SortCol".toList, cfg.SORT_COLUMN),
     ("SortOrder".toList, cfg.SORT_ORDER),
     ("StartRow".toList, numToStr startRow)]

/-- The function `fetchPage(startRow)`: the requests it sends, in order, and
how its promise ends (the returned text, the error thrown, or no end). -/
def fetchPage (cfg : Config) (net : Network) (startRow : Num) :
    List Request × Settled Str :=
  let req := pageRequest cfg startRow
  match net req with
  | .pending => ([req], .pending)
  | .rejected e => ([req], .rejected e)
  | .resolved response =>
    if !response.ok then
      ([req], .rejected
        ⟨"Request failed with status ".toList ++ numToStr (Num.ofNat response.status)⟩)
    else ([req], response.text)

/-- The observable effects of a run. -/
inductive Event
  | log (msg : Str)
  | logError (msg : Str) (err : JSError)
  | request (req : Request)
  | writeFile (path : Str) (content : Str)
  | delay (ms : Nat)
deriving DecidableEq, Repr

/-- The state of a run of `getAllRecords`: the array `allData`, the content of
`member_records.txt` (`none` while the file does not exist) and the effects so
far, oldest first. -/
structure RunState where
  allData : List Record
  file : Option Str
  trace : List Event
deriving DecidableEq, Repr

/-- How a call of `fs.writeFileSync` ends: the file holds the new content, or
the call throws and leaves the file as `left`. -/
inductive WriteResult
  | done
  | failed (error : JSError) (left : Option Str)
deriving DecidableEq, Repr

/-- The surroundings of a run: the network, how the file write made in the
iteration for each page ends, and the largest number of array elements the
engine can spread into the arguments of one call. -/
structure World where
  net : Network
  writeFile : Nat → WriteResult
  spreadLimit : Nat

/-- The template `${record.column1}, ${record.column2}, ${record.column3}, ${record.column4}`. -/
def recordLine (r : Record) : Str :=
  r.column1 ++ ", ".toList ++ r.column2 ++ ", ".toList ++ r.column3 ++ ", ".toList ++ r.column4

/-- The expression `allData.map(record => ...).join('\n')`. -/
def render (allData : List Record) : Str :=
  ['\n'].intercalate (allData.map recordLine)

/-- The expression `Math.ceil(TOTAL_RECORDS / RECORDS_PER_PAGE)`. -/
def totalPages (cfg : Config) : Num :=
  Num.ceilDiv (Num.ofNat cfg.TOTAL_RECORDS) (Num.ofNat cfg.RECORDS_PER_PAGE)

/-- The constant `startRow` of the loop body, `(page - 1) * RECORDS_PER_PAGE + 1`.
The counter `page` is an integer from 1 to `2 ^ 53`, so `page - 1` is exact. -/
def startRow (cfg : Config) (page : Nat) : Num :=
  Num.add (Num.mul (.int (page - 1)) (Num.ofNat cfg.RECORDS_PER_PAGE)) (.int 1)

/-- The error thrown by `allData.push(...pageData)` when `pageData` has more
elements than the engine can pass as arguments. -/
def spreadError : JSError := ⟨"RangeError: Maximum call stack size exceeded".toList⟩

/-- One iteration of the loop of `getAllRecords` for the counter value `page`;
`pages` is `totalPages`.  The `try` block stops at the first error thrown (by
`fetchPage`, `extractData`, the spread in `push` or `fs.writeFileSync`) and the
`catch` clause logs it.  The result is `none` when the awaited `fetchPage`
never settles. -/
def pageBody (cfg : Config) (w : World) (pages : Num) (st : RunState) (page : Nat) :
    Option RunState :=
  let fetching : Event :=
    .log ("Fetching page ".toList ++ numToStr (.int page) ++ " of ".toList ++ numToStr pages)
  let errorLog (error : JSError) : Event :=
    .logError ("Error fetching page ".toList ++ numToStr (.int page) ++ ":".toList) error
  match fetchPage cfg w.net (startRow cfg page) with
  | (_, .pending) => none
  | (sent, .rejected error) =>
    some { st with trace := st.trace ++ fetching :: sent.map .request ++ [errorLog error] }
  | (sent, .resolved pageContent) =>
    match extractData pageContent with
    | .error error =>
      some { st with trace := st.trace ++ fetching :: sent.map .request ++ [errorLog error] }
    | .ok pageData =>
      let logged := st.trace ++ fetching :: sent.map .request ++
        pageData.map (fun record => .log (recordLine record))
      if w.spreadLimit < pageData.length then
        some { st with trace := logged ++ [errorLog spreadError] }
      else
        let allData := st.allData ++ pageData
        let output := render allData
        match w.writeFile page with
        | .failed error left =>
          some { allData := allData, file := left, trace := logged ++ [errorLog error] }
        | .done =>
          some { allData := allData
                 file := some output
                 trace := logged ++
                   [.writeFile "member_records.txt".toList output, .delay 2000] }

/-- The state at the start of a run; `file` is what `member_records.txt` held
before. -/
def initialState (file : Option Str) : RunState := ⟨[], file, []⟩

/-- The loop `for (let page = 1; page <= totalPages; page++)` from the counter
value `page` on, cut off after `fuel` tests of the condition; `page++` rounds
to the nearest Number. -/
def pageLoop (cfg : Config) (w : World) (pages : Num) : Nat → Nat → RunState → Option RunState
  | 0, _, _ => none
  | fuel + 1, page, st =>
    if Num.le (.int page) pages then
      match pageBody cfg w pages st page with
      | none => none
      | some st' => pageLoop cfg w pages fuel (roundNat (page + 1)) st'
    else some st

/-- The last statement of `getAllRecords`: the summary line. -/
def finish (st : RunState) : RunState :=
  { st with trace := st.trace ++
    [.log ("\nDone! Saved ".toList ++ numToStr (Num.ofNat st.allData.length) ++
      " records to member_records.txt".toList)] }

/-- The function `getAllRecords()`: the state when its promise resolves, `none`
when it has not resolved within `fuel` tests of the loop condition. -/
def getAllRecords (fuel : Nat) (cfg : Config) (w : World) (file : Option Str) :
    Option RunState :=
  let pages := totalPages cfg
  match pageLoop cfg w pages fuel 1 (initialState file) with
  | none => none
  | some st => some (finish st)

/-! ## Notions used in the statements -/

/-- The state after the iterations for `page = 1, ..., k`, when each of them
ends. -/
def runPages (cfg : Config) (w : World) (pages : Num) (file : Option Str) (k : Nat) :
    Option RunState :=
  (List.range' 1 k).foldlM (pageBody cfg w pages) (initialState file)

/-- The requests of a trace, in order. -/
def requestsOf : List Event → List Request
  | [] => []
  | .request req :: es => req :: requestsOf es
  | _ :: es => requestsOf es

/-- Did the fetch of the page succeed (`fetchPage` returned the page text)? -/
def fetchSucceeds (cfg : Config) (net : Network) (page : Nat) : Bool :=
  match (fetchPage cfg net (startRow cfg page)).2 with
  | .resolved _ => true
  | _ => false

/-- The records `extractData` finds in the text that `fetchPage` returns for
the page, none when `fetchPage` did not return a text. -/
def extractedRecords (cfg : Config) (net : Network) (page : Nat) : List Record :=
  match (fetchPage cfg net (startRow cfg page)).2 with
  | .resolved pageContent =>
    match extractData pageContent with
    | .ok pageData => pageData
    | .error _ => []
  | _ => []

/-- Were the records of the page appended to `allData`: its fetch succeeded and
the spread in `push` did not throw. -/
def pageAppended (cfg : Config) (w : World) (page : Nat) : Bool :=
  fetchSucceeds cfg w.net page && decide ((extractedRecords cfg w.net page).length ≤ w.spreadLimit)

/-- The records the iteration for the page adds to `allData`. -/
def pageRecords (cfg : Config) (w : World) (page : Nat) : List Record :=
  if pageAppended cfg w page then extractedRecords cfg w.net page else []

/-- The start row of page `n` in exact arithmetic, `(n - 1) * RECORDS_PER_PAGE + 1`. -/
def exactStart (cfg : Config) (n : Nat) : Nat := (n - 1) * cfg.RECORDS_PER_PAGE + 1

/-- Every fetch of the run settles: `fetchPage` resolves or rejects for every
start row. -/
def NeverPending (cfg : Config) (net : Network) : Prop :=
  ∀ row : Num, (fetchPage cfg net row).2 ≠ .pending

/-- Between any two page fetches of the trace lies a completed delay of
2000 ms. -/
def Throttled (trace : List Event) : Prop :=
  ∀ i j req₁ req₂, i < j → trace.get? i = some (.request req₁) →
    trace.get? j = some (.request req₂) →
    ∃ k, i < k ∧ k < j ∧ trace.get? k = some (.delay 2000)

/-- Does a completed delay of 2000 ms come before the first request of the
events, if there is a request at all? -/
def delayFirst : List Event → Bool
  | [] => true
  | .request _ :: _ => false
  | .delay ms :: es => ms == 2000 || delayFirst es
  | _ :: es => delayFirst es

/-- A decision procedure for `Throttled`: after every request, a completed
delay of 2000 ms comes before the next request. -/
def gapsDelayed : List Event → Bool
  | [] => true
  | .request _ :: es => delayFirst es && gapsDelayed es
  | _ :: es => gapsDelayed es

/-- The lines of a text: the pieces between line feeds. -/
def lines : Str → List Str
  | [] => [[]]
  | c :: t =>
    match lines t with
    | [] => [[]]
    | l :: ls => if c = '\n' then [] :: l :: ls else (c :: l) :: ls

/-! ## Row and cell fragments, as the specification words them -/

/-- Cut `s` at the first occurrence of `pat`: the text before the occurrence
and the text after it. -/
def splitAtFirst (pat : Str) : Str → Option (Str × Str)
  | [] => if pat.isPrefixOf [] then some ([], []) else none
  | c :: t =>
    if pat.isPrefixOf (c :: t) then some ([], (c :: t).drop pat.length)
    else
      match splitAtFirst pat t with
      | some (a, b) => some (c :: a, b)
      | none => none

/-- A fragment bounded by an opening marker `<tag ... >` and the next closing
marker `</tag>`: what stands in the opening marker after the tag name, and the
inner text. -/
structure Fragment where
  attrs : Str
  inner : Str
deriving DecidableEq, Repr

/-- The closing marker `</tag>`. -/
def closing (tag : Str) : Str := '<' :: '/' :: tag ++ ['>']

/-- The common shape of the two patterns: `<tag`, `[^>]*`, `>`, a body, and the
closing marker `</tag>`. -/
def elementRegex (tag : Str) (body : Regex) : Regex :=
  Regex.lits ('<' :: tag)
    (Regex.seq (Regex.star (CharClass.notLit '>'))
      (Regex.seq (Regex.char (CharClass.lit '>'))
        (Regex.seq body (Regex.lits (closing tag) Regex.eps))))

/-- The whole text of a fragment. -/
def Fragment.text (tag : Str) (f : Fragment) : Str :=
  '<' :: tag ++ f.attrs ++ ['>'] ++ f.inner ++ closing tag

/-- The fragment starting exactly at the beginning of `s`, with the input
after it: `<tag`, then everything up to the first `>`, then the inner text up to
the next closing marker (non-greedy). -/
def fragmentAt (tag : Str) (s : Str) : Option (Fragment × Str) :=
  if ('<' :: tag).isPrefixOf s then
    match splitAtFirst ['>'] (s.drop (tag.length + 1)) with
    | none => none
    | some (attrs, body) =>
      match splitAtFirst (closing tag) body with
      | none => none
      | some (inner, rest) => some (⟨attrs, inner⟩, rest)
  else none

/-- The successive non-overlapping fragments of `s` in document order; `skip`
counts the characters still covered by the fragment found last. -/
def fragmentsFrom (tag : Str) : Str → Nat → List Fragment
  | [], _ => []
  | _ :: t, skip + 1 => fragmentsFrom tag t skip
  | c :: t, 0 =>
    match fragmentAt tag (c :: t) with
    | some (f, _) => f :: fragmentsFrom tag t ((f.text tag).length - 1)
    | none => fragmentsFrom tag t 0

/-- The row fragments of a document. -/
def rowFragments (html : Str) : List Str :=
  (fragmentsFrom "tr".toList html 0).map (Fragment.text "tr".toList)

/-- The trimmed inner texts of the cell fragments of a row fragment. -/
def cellValues (row : Str) : List Str :=
  (fragmentsFrom "td".toList row 0).map (fun f => trim f.inner)

/-- The Record of a row fragment: built from its first four cell values when
there are at least four, none otherwise. -/
def recordOfRow (row : Str) : Option Record :=
  match cellValues row with
  | a :: b :: c :: d :: _ => some ⟨a, b, c, d⟩
  | _ => none

/-- The Record Extractor as the specification describes it. -/
def specExtract (html : Str) : List Record :=
  (rowFragments html).filterMap recordOfRow

/-! ## Scenarios -/

/-- A world in which every file write succeeds, with the spread limit of a
default Node.js stack. -/
def plainWorld (net : Network) : World := ⟨net, fun _ => .done, 125000⟩

/-- A server that answers every request with status 500. -/
def failingNet : Network := fun _ => .resolved ⟨500, .resolved []⟩

/-- A server that answers the request for start row 1 with one table row of
four cells and every other request with status 500. -/
def secondPageFails : Network := fun req =>
  if req = pageRequest sourceConfig (.int 1) then
    .resolved ⟨200,
      .resolved "<table><tr><td>Ann</td><td>Lee</td><td>42</td><td>NY</td></tr></table>".toList⟩
  else .resolved ⟨500, .resolved []⟩

/-- A page with two well-formed rows of four cells. -/
def twoRowPage : Str :=
  ("<table>\n<tr><td>cell1</td><td>cell2</td><td>cell3</td><td>cell4</td></tr>\n" ++
    "<tr><td>cell1</td><td>cell2</td><td>cell3</td><td>cell4</td></tr>\n</table>").toList

/-- A page whose first cell spans two lines. -/
def brokenLinePage : Str :=
  "<tr><td>Ann\nLee</td><td>b</td><td>c</td><td>d</td></tr>".toList

/-- One table row of four cells. -/
def sampleRow : Str := "<tr><td>a</td><td>b</td><td>c</td><td>d</td></tr>".toList

/-- A page of `n` copies of `sampleRow`. -/
def bigPage (n : Nat) : Str := (List.replicate n sampleRow).flatten

/-- A server that answers every request with status 200 and a page of `n`
rows. -/
def bigPageNet (n : Nat) : Network := fun _ => .resolved ⟨200, .resolved (bigPage n)⟩

/-- The source constants with a single page of 50 records. -/
def onePageConfig : Config := { sourceConfig with TOTAL_RECORDS := 50 }

/-- A server whose response has status 200 and a body that cannot be read. -/
def brokenBodyNet : Network := fun _ =>
  .resolved ⟨200, .rejected ⟨"FetchError: Premature close".toList⟩⟩

/-- The source constants with a total of `2 ^ 54` records in pages of 3. -/
def hugeTotalConfig : Config :=
  { sourceConfig with TOTAL_RECORDS := 2 ^ 54, RECORDS_PER_PAGE := 3 }

/-- The source constants with a total of `2 ^ 54` records in pages of `2 ^ 53`. -/
def hugePageConfig : Config :=
  { sourceConfig with TOTAL_RECORDS := 2 ^ 54, RECORDS_PER_PAGE := 2 ^ 53 }

/-- A world in which the write of page 1 throws and leaves the file as it was. -/
def writeFailsWorld (left : Option Str) : World :=
  ⟨secondPageFails, fun _ => .failed ⟨"EACCES: permission denied".toList⟩ left, 125000⟩
/-! ## The matcher on the two patterns -/

theorem run_lits {α : Type} (p : Str) (r : Regex) :
    ∀ (s : Str) (caps : List Str) (k : Str → List Str → Option α),
      (Regex.lits p r).run s caps k =
        if p.isPrefixOf s then r.run (s.drop p.length) caps k else none := by
  induction p with
  | nil => intro s caps k; simp [Regex.lits]
  | cons c p ih =>
    intro s caps k
    cases s with
    | nil => simp [Regex.lits, Regex.run]
    | cons x t =>
      have h := ih t caps k
      simp only [Regex.lits] at h
      simp only [Regex.lits, List.foldr_cons, Regex.run, CharClass.test, h, List.isPrefixOf,
        List.length_cons, List.drop_succ_cons]
      by_cases hx : x = c
      · subst hx; simp
      · have hx' : ¬ c = x := fun e => hx e.symm
        simp [hx, hx']

theorem run_eps {α : Type} (s : Str) (caps : List Str) (k : Str → List Str → Option α) :
    Regex.eps.run s caps k = k s caps := rfl

theorem run_seq {α : Type} (r₁ r₂ : Regex) (s : Str) (caps : List Str)
    (k : Str → List Str → Option α) :
    (Regex.seq r₁ r₂).run s caps k = r₁.run s caps (fun s' caps' => r₂.run s' caps' k) := rfl

theorem run_star {α : Type} (cls : CharClass) (s : Str) (caps : List Str)
    (k : Str → List Str → Option α) :
    (Regex.star cls).run s caps k = greedyLoop cls.test (fun s' => k s' caps) s := rfl

theorem run_starLazy {α : Type} (cls : CharClass) (s : Str) (caps : List Str)
    (k : Str → List Str → Option α) :
    (Regex.starLazy cls).run s caps k = lazyLoop cls.test (fun s' => k s' caps) s := rfl

theorem run_group {α : Type} (r : Regex) (s : Str) (caps : List Str)
    (k : Str → List Str → Option α) :
    (Regex.group r).run s caps k =
      r.run s caps (fun s' caps' => k s' (caps' ++ [s.take (s.length - s'.length)])) := rfl

theorem greedy_until {α : Type} (c : Char) (caps : List Str) (k : Str → List Str → Option α) :
    ∀ s : Str,
      greedyLoop (CharClass.notLit c).test
          (fun s' => (Regex.char (CharClass.lit c)).run s' caps k) s =
        match splitAtFirst [c] s with
        | some (_, b) => k b caps
        | none => none := by
  intro s
  induction s with
  | nil => simp [greedyLoop, splitAtFirst, List.isPrefixOf, Regex.run]
  | cons x t ih =>
    by_cases hx : x = c
    · subst hx
      simp [greedyLoop, splitAtFirst, List.isPrefixOf, CharClass.test, Regex.run]
    · have hx' : ¬ c = x := fun e => hx e.symm
      simp only [greedyLoop, ih]
      simp only [CharClass.test, splitAtFirst, List.isPrefixOf, Regex.run]
      cases hsp : splitAtFirst [c] t with
      | none => simp [hx, hx']
      | some ab =>
        obtain ⟨a, b⟩ := ab
        cases hk : k b caps <;> simp [hx, hx', hk]

theorem lazy_until {α : Type} (p : Str) (F : Str → α) :
    ∀ s : Str,
      lazyLoop CharClass.any.test (fun s' => if p.isPrefixOf s' then some (F s') else none) s =
        match splitAtFirst p s with
        | some (a, _) => some (F (s.drop a.length))
        | none => none := by
  intro s
  induction s with
  | nil =>
    by_cases h : p.isPrefixOf [] <;> simp [lazyLoop, splitAtFirst, h]
  | cons x t ih =>
    by_cases h : p.isPrefixOf (x :: t)
    · simp [lazyLoop, splitAtFirst, h]
    · simp only [lazyLoop, splitAtFirst, h, CharClass.test, ih]
      cases hsp : splitAtFirst p t with
      | none => simp
      | some ab => obtain ⟨a, b⟩ := ab; simp

theorem splitAtFirst_eq (p : Str) :
    ∀ (s a b : Str), splitAtFirst p s = some (a, b) → s = a ++ p ++ b := by
  intro s
  induction s with
  | nil =>
    intro a b h
    by_cases hp : p.isPrefixOf []
    · simp only [splitAtFirst, hp, if_true, Option.some.injEq, Prod.mk.injEq] at h
      have : p = [] := by
        cases p with
        | nil => rfl
        | cons c p => simp [List.isPrefixOf] at hp
      obtain ⟨rfl, rfl⟩ := h
      simp [this]
    · simp [splitAtFirst, hp] at h
  | cons x t ih =>
    intro a b h
    by_cases hp : p.isPrefixOf (x :: t)
    · simp only [splitAtFirst, hp, if_true, Option.some.injEq, Prod.mk.injEq] at h
      obtain ⟨rfl, rfl⟩ := h
      have hp' : p <+: (x :: t) := List.isPrefixOf_iff_prefix.mp hp
      obtain ⟨u, hu⟩ := hp'
      rw [← hu]
      simp
    · simp only [splitAtFirst, hp] at h
      cases hsp : splitAtFirst p t with
      | none => simp [hsp] at h
      | some ab =>
        obtain ⟨a', b'⟩ := ab
        simp only [hsp, Bool.false_eq_true, if_false, Option.some.injEq, Prod.mk.injEq] at h
        obtain ⟨rfl, rfl⟩ := h
        have := ih a' b' hsp
        simp [this]


theorem element_matchAt (tag : Str) (s : Str) :
    (elementRegex tag (Regex.starLazy CharClass.any)).matchAt s =
      (fragmentAt tag s).map (fun fr => (fr.2, [])) := by
  simp only [Regex.matchAt, elementRegex, run_lits, run_seq, run_star, run_starLazy, run_eps,
    greedy_until, lazy_until, fragmentAt]
  by_cases hp : ('<' :: tag).isPrefixOf s
  · simp only [hp, if_true, List.length_cons]
    cases h1 : splitAtFirst ['>'] (s.drop (tag.length + 1)) with
    | none => rfl
    | some ab =>
      obtain ⟨attrs, body⟩ := ab
      simp only
      cases h2 : splitAtFirst (closing tag) body with
      | none => rfl
      | some cd =>
        obtain ⟨inner, rest⟩ := cd
        have hb := splitAtFirst_eq _ _ _ _ h2
        simp only [Option.map_some']
        subst hb
        simp
  · simp [hp]

theorem element_group_matchAt (tag : Str) (s : Str) :
    (elementRegex tag (Regex.group (Regex.starLazy CharClass.any))).matchAt s =
      (fragmentAt tag s).map (fun fr => (fr.2, [fr.1.inner])) := by
  simp only [Regex.matchAt, elementRegex, run_lits, run_seq, run_star, run_starLazy, run_eps,
    run_group, greedy_until, lazy_until, fragmentAt]
  by_cases hp : ('<' :: tag).isPrefixOf s
  · simp only [hp, if_true, List.length_cons]
    cases h1 : splitAtFirst ['>'] (s.drop (tag.length + 1)) with
    | none => rfl
    | some ab =>
      obtain ⟨attrs, body⟩ := ab
      simp only
      cases h2 : splitAtFirst (closing tag) body with
      | none => rfl
      | some cd =>
        obtain ⟨inner, rest⟩ := cd
        have hb := splitAtFirst_eq _ _ _ _ h2
        simp only [Option.map_some']
        subst hb
        simp
  · simp [hp]

theorem rowRegex_matchAt (s : Str) :
    rowRegex.matchAt s = (fragmentAt "tr".toList s).map (fun fr => (fr.2, [])) :=
  element_matchAt "tr".toList s

theorem cellRegex_matchAt (s : Str) :
    cellRegex.matchAt s = (fragmentAt "td".toList s).map (fun fr => (fr.2, [fr.1.inner])) :=
  element_group_matchAt "td".toList s


/-! ## The global matching loop -/

theorem execLoop_fuel (re : Regex) :
    ∀ (f₁ f₂ : Nat) (s : Str), s.length < f₁ → s.length < f₂ →
      re.execLoop f₁ s = re.execLoop f₂ s := by
  intro f₁
  induction f₁ with
  | zero => intro f₂ s h; omega
  | succ n ih =>
    intro f₂ s h₁ h₂
    cases f₂ with
    | zero => omega
    | succ m =>
      simp only [Regex.execLoop]
      cases hm : re.matchAt s with
      | none =>
        cases s with
        | nil => rfl
        | cons c t =>
          simp only [List.length_cons] at h₁ h₂
          exact ih m t (by omega) (by omega)
      | some rc =>
        obtain ⟨rest, caps⟩ := rc
        simp only
        by_cases hlt : rest.length < s.length
        · simp only [hlt, if_true]
          rw [ih m rest (by omega) (by omega)]
        · simp only [hlt, if_false]
          cases s with
          | nil => rfl
          | cons c t =>
            simp only [List.length_cons] at h₁ h₂
            simp only
            rw [ih m t (by omega) (by omega)]

theorem fragmentAt_eq (tag s : Str) (f : Fragment) (rest : Str)
    (h : fragmentAt tag s = some (f, rest)) : s = f.text tag ++ rest := by
  unfold fragmentAt at h
  by_cases hp : ('<' :: tag).isPrefixOf s
  · simp only [hp, if_true] at h
    cases h1 : splitAtFirst ['>'] (s.drop (tag.length + 1)) with
    | none => simp [h1] at h
    | some ab =>
      obtain ⟨attrs, body⟩ := ab
      simp only [h1] at h
      cases h2 : splitAtFirst (closing tag) body with
      | none => simp [h2] at h
      | some cd =>
        obtain ⟨inner, rest'⟩ := cd
        simp only [h2, Option.some.injEq, Prod.mk.injEq] at h
        obtain ⟨rfl, rfl⟩ := h
        have e1 := splitAtFirst_eq _ _ _ _ h1
        have e2 := splitAtFirst_eq _ _ _ _ h2
        obtain ⟨u, hu⟩ := List.isPrefixOf_iff_prefix.mp hp
        have e3 : u = s.drop (tag.length + 1) := by
          rw [← hu]
          simp
        rw [← hu, e3, e1, e2]
        simp [Fragment.text]
  · simp [hp] at h

theorem fragmentsFrom_skip (tag : Str) :
    ∀ (a r : Str), fragmentsFrom tag (a ++ r) a.length = fragmentsFrom tag r 0 := by
  intro a
  induction a with
  | nil => intro r; rfl
  | cons x a ih =>
    intro r
    simp only [List.cons_append, List.length_cons, fragmentsFrom]
    exact ih r

theorem execLoop_fragments (re : Regex) (tag : Str) (caps : Fragment → List Str)
    (h : ∀ s, re.matchAt s = (fragmentAt tag s).map (fun fr => (fr.2, caps fr.1))) :
    ∀ (fuel : Nat) (s : Str), s.length < fuel →
      re.execLoop fuel s =
        (fragmentsFrom tag s 0).map (fun f => ⟨f.text tag, caps f⟩) := by
  intro fuel
  induction fuel with
  | zero => intro s hs; omega
  | succ n ih =>
    intro s hs
    simp only [Regex.execLoop, h]
    cases hf : fragmentAt tag s with
    | none =>
      cases s with
      | nil => simp [fragmentsFrom]
      | cons c t =>
        simp only [List.length_cons] at hs
        simp only [Option.map_none', fragmentsFrom, hf]
        exact ih t (by omega)
    | some fr =>
      obtain ⟨f, rest⟩ := fr
      have hs' := fragmentAt_eq tag s f rest hf
      have htext : f.text tag = '<' :: (tag ++ f.attrs ++ ['>'] ++ f.inner ++ closing tag) := by
        simp [Fragment.text]
      have hlen : rest.length < s.length := by
        rw [hs', htext]; simp; omega
      have htake : s.take (s.length - rest.length) = f.text tag := by
        rw [hs']; simp
      simp only [Option.map_some', hlen, if_true, htake]
      rw [ih rest (by omega)]
      have hfr : fragmentsFrom tag s 0 =
          f :: fragmentsFrom tag rest 0 := by
        have hs2 : s = '<' :: ((tag ++ f.attrs ++ ['>'] ++ f.inner ++ closing tag) ++ rest) := by
          rw [hs', htext]; rfl
        have hf2 := hf
        rw [hs2] at hf2 ⊢
        simp only [fragmentsFrom, hf2]
        have hl : (f.text tag).length - 1 =
            (tag ++ f.attrs ++ ['>'] ++ f.inner ++ closing tag).length := by
          rw [htext]; simp
        rw [hl, fragmentsFrom_skip]
      rw [hfr]
      simp

theorem matchAll_rowRegex (html : Str) :
    matchAll rowRegex html =
      (fragmentsFrom "tr".toList html 0).map (fun f => ⟨f.text "tr".toList, []⟩) :=
  execLoop_fragments rowRegex "tr".toList (fun _ => []) rowRegex_matchAt _ html
    (Nat.lt_succ_self _)

theorem matchAll_cellRegex (row : Str) :
    matchAll cellRegex row =
      (fragmentsFrom "td".toList row 0).map (fun f => ⟨f.text "td".toList, [f.inner]⟩) :=
  execLoop_fragments cellRegex "td".toList (fun f => [f.inner]) cellRegex_matchAt _ row
    (Nat.lt_succ_self _)

/-! ## extractData -/

theorem strMatch_rowRegex (html : Str) :
    (strMatch rowRegex html).getD [] = rowFragments html := by
  unfold strMatch rowFragments
  rw [matchAll_rowRegex]
  cases fragmentsFrom "tr".toList html 0 with
  | nil => rfl
  | cons f fs => simp [Function.comp_def]

theorem mapM_cellText (fs : List Fragment) :
    (fs.map (fun f => (⟨f.text "td".toList, [f.inner]⟩ : MatchResult))).mapM cellText =
      (Except.ok (fs.map (fun f => trim f.inner)) : Except JSError (List Str)) := by
  induction fs with
  | nil => rfl
  | cons f fs ih =>
    simp only [List.map_cons, List.mapM_cons, ih]
    rfl

theorem rowCells_eq (row : Str) : rowCells row = .ok (cellValues row) := by
  unfold rowCells cellValues
  rw [matchAll_cellRegex, mapM_cellText]

theorem extractStep_eq (data : List Record) (row : Str) :
    extractStep data row = .ok (data ++ (recordOfRow row).toList) := by
  unfold extractStep recordOfRow
  rw [rowCells_eq]
  simp only
  rcases cellValues row with _ | ⟨a, _ | ⟨b, _ | ⟨c, _ | ⟨d, l⟩⟩⟩⟩ <;> simp

theorem foldlM_extractStep (rows : List Str) :
    ∀ data : List Record,
      rows.foldlM extractStep data = .ok (data ++ rows.filterMap recordOfRow) := by
  induction rows with
  | nil => intro data; simp [pure, Except.pure]
  | cons row rows ih =>
    intro data
    simp only [List.foldlM_cons, extractStep_eq]
    show rows.foldlM extractStep (data ++ (recordOfRow row).toList) = _
    rw [ih]
    cases hr : recordOfRow row <;> simp [List.filterMap_cons, hr]

theorem extractData_eq (html : Str) : extractData html = .ok (specExtract html) := by
  unfold extractData specExtract
  simp only [strMatch_rowRegex, foldlM_extractStep, List.nil_append]

theorem fragmentsFrom_nil (tag : Str) :
    ∀ (s : Str) (skip : Nat), (∀ t, t <:+ s → fragmentAt tag t = none) →
      fragmentsFrom tag s skip = [] := by
  intro s
  induction s with
  | nil => intro skip _; cases skip <;> rfl
  | cons c t ih =>
    intro skip h
    have ht : ∀ u, u <:+ t → fragmentAt tag u = none :=
      fun u hu => h u (hu.trans (List.suffix_cons c t))
    cases skip with
    | zero =>
      simp only [fragmentsFrom, h (c :: t) (List.suffix_refl _)]
      exact ih 0 ht
    | succ k =>
      simp only [fragmentsFrom]
      exact ih k ht

theorem fragmentAt_markers (tag s : Str) (f : Fragment) (rest : Str)
    (h : fragmentAt tag s = some (f, rest)) :
    ('<' :: tag) <:+: s ∧ closing tag <:+: s := by
  have hs := fragmentAt_eq tag s f rest h
  constructor
  · refine ⟨[], f.attrs ++ ['>'] ++ f.inner ++ closing tag ++ rest, ?_⟩
    rw [hs]; simp [Fragment.text]
  · refine ⟨'<' :: tag ++ f.attrs ++ ['>'] ++ f.inner, rest, ?_⟩
    rw [hs]; simp [Fragment.text]

theorem extractData_no_markers (html : Str)
    (h : ¬ "<tr".toList <:+: html ∨ ¬ "</tr>".toList <:+: html) :
    extractData html = .ok [] := by
  rw [extractData_eq]
  unfold specExtract rowFragments
  rw [fragmentsFrom_nil]
  · rfl
  · intro t ht
    cases hf : fragmentAt "tr".toList t with
    | none => rfl
    | some fr =>
      exfalso
      obtain ⟨f, rest⟩ := fr
      obtain ⟨h1, h2⟩ := fragmentAt_markers _ _ _ _ hf
      have h1' : "<tr".toList <:+: t := h1
      have h2' : "</tr>".toList <:+: t := h2
      rcases h with h | h
      · exact h (h1'.trans ht.isInfix)
      · exact h (h2'.trans ht.isInfix)
/-! ## Rendering -/

theorem lines_ne_nil (s : Str) : lines s ≠ [] := by
  cases s with
  | nil => simp [lines]
  | cons c t =>
    simp only [lines]
    cases lines t with
    | nil => simp
    | cons l ls => by_cases h : c = '\n' <;> simp [h]

theorem lines_newline (t : Str) : lines ('\n' :: t) = [] :: lines t := by
  simp only [lines]
  cases h : lines t with
  | nil => exact absurd h (lines_ne_nil t)
  | cons l ls => simp

theorem lines_append (l t x : Str) (xs : List Str) (ht : lines t = x :: xs)
    (hl : '\n' ∉ l) : lines (l ++ t) = (l ++ x) :: xs := by
  induction l with
  | nil => simpa using ht
  | cons c l ih =>
    have hc : c ≠ '\n' := fun e => hl (by simp [e])
    have hl' : '\n' ∉ l := fun e => hl (by simp [e])
    have e : lines (c :: (l ++ t)) = (c :: (l ++ x)) :: xs := by
      simp only [lines, ih hl', hc, if_false]
    simpa using e

theorem intercalate_cons_cons (sep l l' : Str) (ls : List Str) :
    sep.intercalate (l :: l' :: ls) = l ++ sep ++ sep.intercalate (l' :: ls) := by
  simp [List.intercalate, List.intersperse]

theorem lines_intercalate :
    ∀ ls : List Str, ls ≠ [] → (∀ l ∈ ls, '\n' ∉ l) → lines (['\n'].intercalate ls) = ls := by
  intro ls
  induction ls with
  | nil => intro h; exact absurd rfl h
  | cons l ls ih =>
    intro _ hno
    have hl : '\n' ∉ l := hno l (by simp)
    cases ls with
    | nil =>
      have h0 : ['\n'].intercalate [l] = l ++ [] := by simp [List.intercalate, List.intersperse]
      rw [h0]
      exact (lines_append l [] [] [] rfl hl).trans (by simp)
    | cons l' ls' =>
      have ih' := ih (by simp) (fun x hx => hno x (by simp [List.mem_cons] at hx ⊢; tauto))
      rw [intercalate_cons_cons, List.append_assoc]
      have h1 : lines (['\n'] ++ ['\n'].intercalate (l' :: ls')) = [] :: (l' :: ls') := by
        rw [List.singleton_append, lines_newline, ih']
      rw [lines_append l _ [] (l' :: ls') h1 hl]
      simp

theorem recordLine_no_newline (r : Record)
    (h : '\n' ∉ r.column1 ∧ '\n' ∉ r.column2 ∧ '\n' ∉ r.column3 ∧ '\n' ∉ r.column4) :
    '\n' ∉ recordLine r := by
  obtain ⟨h1, h2, h3, h4⟩ := h
  simp [recordLine, h1, h2, h3, h4]
/-! ## Numbers below `2 ^ 53` -/

theorem ilog2Loop_spec :
    ∀ (fuel n : Nat), n ≤ fuel → 1 ≤ n →
      2 ^ ilog2Loop fuel n ≤ n ∧ n < 2 ^ (ilog2Loop fuel n + 1) := by
  intro fuel
  induction fuel with
  | zero => intro n h1 h2; omega
  | succ fuel ih =>
    intro n h1 h2
    by_cases hn : n < 2
    · have : n = 1 := by omega
      subst this
      simp [ilog2Loop]
    · have h3 := ih (n / 2) (by omega) (by omega)
      simp only [ilog2Loop, hn, if_false]
      obtain ⟨h4, h5⟩ := h3
      have e1 : 2 ^ (ilog2Loop fuel (n / 2) + 1) = 2 ^ ilog2Loop fuel (n / 2) * 2 :=
        pow_succ 2 _
      have e2 : 2 ^ (ilog2Loop fuel (n / 2) + 1 + 1) = 2 ^ ilog2Loop fuel (n / 2) * 2 * 2 := by
        rw [pow_succ, pow_succ]
      rw [e2, e1]
      rw [e1] at h5
      constructor <;> omega

theorem ilog2_spec (n : Nat) (h : 1 ≤ n) : 2 ^ ilog2 n ≤ n ∧ n < 2 ^ (ilog2 n + 1) :=
  ilog2Loop_spec n n (Nat.le_refl n) h

theorem ilog2_lt (n k : Nat) (h : n < 2 ^ k) : ilog2 n < k ∨ n = 0 := by
  rcases Nat.eq_zero_or_pos n with h0 | hpos
  · exact Or.inr h0
  · left
    have h1 := (ilog2_spec n hpos).1
    by_contra hc
    have h2 : 2 ^ k ≤ 2 ^ ilog2 n := Nat.pow_le_pow_right (by decide) (by omega)
    omega

theorem ilog2_le_52 (n : Nat) (h : n < 2 ^ 53) : ilog2 n ≤ 52 := by
  rcases ilog2_lt n 53 h with h1 | h1
  · omega
  · subst h1; decide

theorem roundNat_of_le (n : Nat) (h : n ≤ 2 ^ 53) : roundNat n = n := by
  rcases Nat.lt_or_ge n (2 ^ 53) with hlt | hge
  · simp [roundNat, ilog2_le_52 n hlt]
  · have : n = 2 ^ 53 := Nat.le_antisymm h hge
    subst this
    decide

theorem ofNat_of_le (n : Nat) (h : n ≤ 2 ^ 53) : Num.ofNat n = .int n := by
  have h2 : n < 2 ^ 1024 :=
    Nat.lt_of_le_of_lt h (Nat.pow_lt_pow_right Nat.one_lt_two (by decide : 53 < 1024))
  unfold Num.ofNat
  rw [roundNat_of_le n h, if_pos h2]

theorem roundHalfEven_ge (N D : Nat) : N / D ≤ roundHalfEven N D := by
  unfold roundHalfEven
  dsimp only
  split
  · exact Nat.le_refl _
  · split
    · omega
    · split <;> omega

theorem roundHalfEven_le (N D : Nat) : roundHalfEven N D ≤ N / D + 1 := by
  unfold roundHalfEven
  dsimp only
  split
  · omega
  · split
    · omega
    · split <;> omega

theorem roundHalfEven_exact (N D : Nat) (hD : 1 ≤ D) (h : N % D = 0) :
    roundHalfEven N D = N / D := by
  unfold roundHalfEven
  dsimp only
  rw [h]
  simp
  omega

theorem roundHalfEven_up (N D : Nat) (h : D < 2 * (N % D)) :
    roundHalfEven N D = N / D + 1 := by
  unfold roundHalfEven
  dsimp only
  have h1 : ¬ 2 * (N % D) < D := by omega
  simp [h1, h]

/-- The ceiling of the quotient rounded to a multiple of `2 ^ (-k)` is the
least `p` with `a <= p * b`, as soon as `b < 2 ^ (k + 1)`. -/
theorem ceil_round_isLeast (a b k : Nat) (hb : 1 ≤ b) (hk : b < 2 ^ (k + 1)) :
    IsLeast {p : Nat | a ≤ p * b}
      ((roundHalfEven (a * 2 ^ k) b + 2 ^ k - 1) / 2 ^ k) := by
  set P := 2 ^ k with hP
  have hPpos : 1 ≤ P := Nat.one_le_two_pow
  have hk' : b < 2 * P := by rw [hP, ← Nat.pow_succ']; exact hk
  set M := roundHalfEven (a * P) b with hM
  set R := (M + P - 1) / P with hR
  set q := a * P / b with hq
  set r := a * P % b with hr
  have hdm : b * q + r = a * P := Nat.div_add_mod (a * P) b
  have hrlt : r < b := Nat.mod_lt _ (by omega)
  have hMge : q ≤ M := roundHalfEven_ge _ _
  have hMle : M ≤ q + 1 := roundHalfEven_le _ _
  -- the ceiling brackets M
  have hRM : M ≤ R * P := by
    have h1 := Nat.div_add_mod (M + P - 1) P
    have h2 : (M + P - 1) % P < P := Nat.mod_lt _ (by omega)
    have h3 : P * R = R * P := Nat.mul_comm _ _
    rw [← hR] at h1
    omega
  have hRM' : R * P < M + P := by
    have h1 := Nat.div_add_mod (M + P - 1) P
    have h3 : P * R = R * P := Nat.mul_comm _ _
    rw [← hR] at h1
    omega
  constructor
  · -- a ≤ R * b
    show a ≤ R * b
    by_contra hc
    have hc' : R * b + 1 ≤ a := by omega
    have h1 : (R * b + 1) * P ≤ a * P := Nat.mul_le_mul_right P hc'
    have h2 : (R * b + 1) * P = b * (R * P) + P := by ring
    -- q ≥ R * P
    have hqge : R * P ≤ q := by
      by_contra hq'
      have h3 : q + 1 ≤ R * P := by omega
      have h4 : b * (q + 1) ≤ b * (R * P) := Nat.mul_le_mul_left b h3
      have h5 : b * (q + 1) = b * q + b := by ring
      omega
    rcases Nat.eq_or_lt_of_le hqge with heq | hlt
    · have h6 : b * q = b * (R * P) := by rw [heq]
      have hr2 : b < 2 * r := by omega
      have hup : M = q + 1 := roundHalfEven_up _ _ hr2
      omega
    · omega
  · intro p hp
    have hp' : a ≤ p * b := hp
    by_contra hc
    have hc' : p + 1 ≤ R := by omega
    have h1 : a * P ≤ p * b * P := Nat.mul_le_mul_right P hp'
    have h2 : p * b * P = b * (p * P) := by ring
    have h3 : (p + 1) * P ≤ R * P := Nat.mul_le_mul_right P hc'
    have h4 : (p + 1) * P = p * P + P := by ring
    -- q ≤ p * P
    have hqle : q ≤ p * P := by
      by_contra hq'
      have h5 : p * P + 1 ≤ q := by omega
      have h6 : b * (p * P + 1) ≤ b * q := Nat.mul_le_mul_left b h5
      have h7 : b * (p * P + 1) = b * (p * P) + b := by ring
      omega
    rcases Nat.eq_or_lt_of_le hqle with heq | hlt
    · have h8 : b * q = b * (p * P) := by rw [heq]
      have hr0 : r = 0 := by omega
      have hex : M = q := roundHalfEven_exact _ _ hb hr0
      omega
    · omega

theorem ceilScaled_roundQuot (a b : Nat) (ha' : a < 2 ^ 53) (hb : 1 ≤ b)
    (hb' : b < 2 ^ 53) :
    ∃ k : Nat, b < 2 ^ (k + 1) ∧
      ceilScaled (roundQuot a b) = (roundHalfEven (a * 2 ^ k) b + 2 ^ k - 1) / 2 ^ k := by
  have hla := ilog2_le_52 a ha'
  have hlb := ilog2_le_52 b hb'
  have hbl := (ilog2_spec b hb).2
  have key : ∀ u : Int, (∃ k : Nat, u = -(k : Int) ∧ ilog2 b ≤ k) →
      ∃ k : Nat, b < 2 ^ (k + 1) ∧
        ceilScaled (if 0 ≤ u then (roundHalfEven a (b * 2 ^ u.toNat), u)
          else (roundHalfEven (a * 2 ^ (-u).toNat) b, u)) =
          (roundHalfEven (a * 2 ^ k) b + 2 ^ k - 1) / 2 ^ k := by
    rintro u ⟨k, rfl, hk⟩
    refine ⟨k, ?_, ?_⟩
    · have : 2 ^ (ilog2 b + 1) ≤ 2 ^ (k + 1) := Nat.pow_le_pow_right (by decide) (by omega)
      omega
    · rcases Nat.eq_zero_or_pos k with h0 | hpos
      · subst h0
        simp [ceilScaled]
      · have hneg : ¬ (0 : Int) ≤ -(k : Int) := by omega
        have htn : (- -(k : Int)).toNat = k := by omega
        simp only [hneg, if_false, ceilScaled, htn]
  unfold roundQuot
  dsimp only
  apply key
  unfold quotExp
  dsimp only
  split
  · exact ⟨52 + 1 + ilog2 b - ilog2 a, by omega, by omega⟩
  · exact ⟨52 + ilog2 b - ilog2 a, by omega, by omega⟩

theorem ceilDiv_safe (a b : Nat) (ha : a < 2 ^ 53) (hb : 1 ≤ b) (hb' : b < 2 ^ 53) :
    ∃ T : Nat, Num.ceilDiv (.int a) (.int b) = .int T ∧ IsLeast {p : Nat | a ≤ p * b} T := by
  have hb0 : b ≠ 0 := by omega
  rcases Nat.eq_zero_or_pos a with h0 | hpos
  · subst h0
    refine ⟨0, by simp [Num.ceilDiv, hb0], ?_, fun p _ => Nat.zero_le p⟩
    show 0 ≤ 0 * b
    omega
  · have ha0 : a ≠ 0 := by omega
    obtain ⟨k, hk, hc⟩ := ceilScaled_roundQuot a b ha hb hb'
    refine ⟨ceilScaled (roundQuot a b), by simp [Num.ceilDiv, hb0, ha0], ?_⟩
    rw [hc]
    exact ceil_round_isLeast a b k hb hk

theorem totalPages_safe (cfg : Config) (ht : cfg.TOTAL_RECORDS < 2 ^ 53)
    (hp : 1 ≤ cfg.RECORDS_PER_PAGE) (hp' : cfg.RECORDS_PER_PAGE < 2 ^ 53) :
    ∃ T : Nat, totalPages cfg = .int T ∧
      IsLeast {p : Nat | cfg.TOTAL_RECORDS ≤ p * cfg.RECORDS_PER_PAGE} T := by
  unfold totalPages
  rw [ofNat_of_le _ (Nat.le_of_lt ht), ofNat_of_le _ (Nat.le_of_lt hp')]
  exact ceilDiv_safe _ _ ht hp hp'

theorem startRow_safe (cfg : Config) (page : Nat)
    (h : (page - 1) * cfg.RECORDS_PER_PAGE + 1 ≤ 2 ^ 53)
    (hp : cfg.RECORDS_PER_PAGE ≤ 2 ^ 53) :
    startRow cfg page = .int ((page - 1) * cfg.RECORDS_PER_PAGE + 1) := by
  unfold startRow
  rw [ofNat_of_le _ hp]
  simp only [Num.mul, Num.add]
  rw [ofNat_of_le _ (by omega)]
  simp only [Num.add]
  rw [ofNat_of_le _ h]

theorem numToStr_safe (n : Nat) (h : n < 2 ^ 53) : numToStr (.int n) = Nat.toDigits 10 n := by
  simp only [numToStr]
  rw [if_pos h]
/-! ## fetchPage and the loop of getAllRecords -/

theorem fetchPage_sent (cfg : Config) (net : Network) (row : Num) :
    (fetchPage cfg net row).1 = [pageRequest cfg row] := by
  unfold fetchPage
  dsimp only
  split
  · rfl
  · rfl
  · split <;> rfl

theorem requestsOf_append (a b : List Event) :
    requestsOf (a ++ b) = requestsOf a ++ requestsOf b := by
  induction a with
  | nil => rfl
  | cons e a ih => cases e <;> simp [requestsOf, ih]

theorem requestsOf_requests (rs : List Request) :
    requestsOf (rs.map Event.request) = rs := by
  induction rs with
  | nil => rfl
  | cons r rs ih => simp [requestsOf, ih]

theorem requestsOf_logs (rs : List Record) :
    requestsOf (rs.map (fun record => Event.log (recordLine record))) = [] := by
  induction rs with
  | nil => rfl
  | cons r rs ih => simp [requestsOf, ih]

/-- What one iteration that ends does to the state. -/
theorem pageBody_spec (cfg : Config) (w : World) (pages : Num) (st st' : RunState)
    (page : Nat) (h : pageBody cfg w pages st page = some st') :
    st'.allData = st.allData ++ pageRecords cfg w page ∧
    requestsOf st'.trace = requestsOf st.trace ++ [pageRequest cfg (startRow cfg page)] ∧
    st'.file =
      if pageAppended cfg w page then
        match w.writeFile page with
        | .done => some (render st'.allData)
        | .failed _ left => left
      else st.file := by
  have hs := fetchPage_sent cfg w.net (startRow cfg page)
  unfold pageBody at h
  unfold pageRecords pageAppended fetchSucceeds extractedRecords
  rcases hf : fetchPage cfg w.net (startRow cfg page) with ⟨sent, pageContent | e | _⟩
  · rw [hf] at hs h
    simp only at hs
    subst hs
    simp only [extractData_eq] at h ⊢
    by_cases hl : w.spreadLimit < (specExtract pageContent).length
    · simp only [hl, if_true, Option.some.injEq] at h
      subst h
      have hl' : ¬ (specExtract pageContent).length ≤ w.spreadLimit := by omega
      simp [hl', requestsOf_append, requestsOf, requestsOf_logs]
    · simp only [hl, if_false] at h
      have hl' : (specExtract pageContent).length ≤ w.spreadLimit := by omega
      cases hw : w.writeFile page with
      | done =>
        simp only [hw, Option.some.injEq] at h
        subst h
        simp [hl', requestsOf_append, requestsOf, requestsOf_logs]
      | failed e left =>
        simp only [hw, Option.some.injEq] at h
        subst h
        simp [hl', requestsOf_append, requestsOf, requestsOf_logs]
  · rw [hf] at hs h
    simp only at hs
    subst hs
    simp only [Option.some.injEq] at h
    subst h
    simp [requestsOf_append, requestsOf]
  · rw [hf] at h
    simp at h

theorem pageBody_isSome (cfg : Config) (w : World) (pages : Num) (st : RunState) (page : Nat)
    (h : (fetchPage cfg w.net (startRow cfg page)).2 ≠ .pending) :
    ∃ st', pageBody cfg w pages st page = some st' := by
  unfold pageBody
  rcases hf : fetchPage cfg w.net (startRow cfg page) with ⟨sent, pageContent | e | _⟩
  · simp only [extractData_eq]
    by_cases hl : w.spreadLimit < (specExtract pageContent).length
    · simp [hl]
    · cases hw : w.writeFile page <;> simp [hl]
  · simp
  · rw [hf] at h
    exact absurd rfl h

theorem runPages_succ (cfg : Config) (w : World) (pages : Num) (file : Option Str) (k : Nat) :
    runPages cfg w pages file (k + 1) =
      (runPages cfg w pages file k).bind (fun st => pageBody cfg w pages st (k + 1)) := by
  unfold runPages
  rw [List.range'_1_concat, List.foldlM_append, Nat.add_comm 1 k]
  cases List.foldlM (pageBody cfg w pages) (initialState file) (List.range' 1 k) with
  | none => rfl
  | some st =>
    simp only [List.foldlM_cons, List.foldlM_nil, Option.bind_eq_bind, Option.some_bind]
    cases pageBody cfg w pages st (k + 1) <;> rfl

theorem runPages_isSome (cfg : Config) (w : World) (pages : Num) (file : Option Str)
    (h : NeverPending cfg w.net) : ∀ k, ∃ st, runPages cfg w pages file k = some st := by
  intro k
  induction k with
  | zero => exact ⟨initialState file, rfl⟩
  | succ k ih =>
    obtain ⟨st, hst⟩ := ih
    obtain ⟨st', hst'⟩ := pageBody_isSome cfg w pages st (k + 1) (h _)
    exact ⟨st', by rw [runPages_succ, hst]; exact hst'⟩

theorem runPages_step (cfg : Config) (w : World) (pages : Num) (file : Option Str) (k : Nat)
    (st' : RunState) (h : runPages cfg w pages file (k + 1) = some st') :
    ∃ st, runPages cfg w pages file k = some st ∧
      pageBody cfg w pages st (k + 1) = some st' := by
  rw [runPages_succ] at h
  cases hk : runPages cfg w pages file k with
  | none => rw [hk] at h; exact absurd h (by simp)
  | some st => rw [hk] at h; exact ⟨st, rfl, h⟩

theorem runPages_allData (cfg : Config) (w : World) (pages : Num) (file : Option Str) :
    ∀ k st, runPages cfg w pages file k = some st →
      st.allData = (List.range' 1 k).flatMap (pageRecords cfg w) := by
  intro k
  induction k with
  | zero =>
    intro st h
    simp only [runPages, List.range'_zero, List.foldlM_nil] at h
    cases h
    rfl
  | succ k ih =>
    intro st' h
    obtain ⟨st, hst, hb⟩ := runPages_step cfg w pages file k st' h
    rw [(pageBody_spec cfg w pages st st' (k + 1) hb).1, ih st hst, List.range'_1_concat,
      List.flatMap_append, Nat.add_comm 1 k]
    simp

theorem runPages_requests (cfg : Config) (w : World) (pages : Num) (file : Option Str) :
    ∀ k st, runPages cfg w pages file k = some st →
      requestsOf st.trace =
        (List.range' 1 k).map (fun page => pageRequest cfg (startRow cfg page)) := by
  intro k
  induction k with
  | zero =>
    intro st h
    simp only [runPages, List.range'_zero, List.foldlM_nil] at h
    cases h
    rfl
  | succ k ih =>
    intro st' h
    obtain ⟨st, hst, hb⟩ := runPages_step cfg w pages file k st' h
    rw [(pageBody_spec cfg w pages st st' (k + 1) hb).2.1, ih st hst, List.range'_1_concat,
      Nat.add_comm 1 k]
    simp

/-- The loop with a finite page count below `2 ^ 53` runs the iterations for
the counter values up to the page count, in order. -/
theorem pageLoop_eq (cfg : Config) (w : World) (T : Nat) (hT : T < 2 ^ 53) :
    ∀ (fuel page : Nat) (st : RunState), page ≤ T + 1 → T + 1 - page < fuel →
      pageLoop cfg w (.int T) fuel page st =
        (List.range' page (T + 1 - page)).foldlM (pageBody cfg w (.int T)) st := by
  intro fuel
  induction fuel with
  | zero => intro page st _ h; omega
  | succ fuel ih =>
    intro page st h1 h2
    by_cases hle : page ≤ T
    · have hlen : T + 1 - page = (T - page) + 1 := by omega
      have hround : roundNat (page + 1) = page + 1 := roundNat_of_le _ (by omega)
      simp only [pageLoop, Num.le, hle, decide_True, if_true, hround]
      rw [hlen, List.range'_succ, List.foldlM_cons]
      cases hb : pageBody cfg w (Num.int T) st page with
      | none => rfl
      | some st' =>
        simp only [Option.bind_eq_bind, Option.some_bind]
        have := ih (page + 1) st' (by omega) (by omega)
        rw [this]
        have hlen' : T + 1 - (page + 1) = T - page := by omega
        rw [hlen']
    · have hz : T + 1 - page = 0 := by omega
      simp only [pageLoop, Num.le, hle, decide_False, hz, List.range'_zero, List.foldlM_nil]
      rfl

theorem getAllRecords_eq (cfg : Config) (w : World) (file : Option Str) (T fuel : Nat)
    (hT : totalPages cfg = .int T) (hT' : T < 2 ^ 53) (hfuel : T < fuel) :
    getAllRecords fuel cfg w file = (runPages cfg w (.int T) file T).map finish := by
  unfold getAllRecords runPages
  simp only [hT]
  rw [pageLoop_eq cfg w T hT' fuel 1 _ (by omega) (by omega)]
  simp only [Nat.add_sub_cancel]
  cases List.foldlM (pageBody cfg w (Num.int T)) (initialState file) (List.range' 1 T) <;> rfl
/-! ## Runs with constants below `2 ^ 53` -/

theorem startRow_of_isLeast (cfg : Config) (T n : Nat) (ht : cfg.TOTAL_RECORDS < 2 ^ 53)
    (hp' : cfg.RECORDS_PER_PAGE < 2 ^ 53)
    (hT : IsLeast {p : Nat | cfg.TOTAL_RECORDS ≤ p * cfg.RECORDS_PER_PAGE} T)
    (h1 : 1 ≤ n) (h2 : n ≤ T) :
    (n - 1) * cfg.RECORDS_PER_PAGE + 1 ≤ cfg.TOTAL_RECORDS ∧
    startRow cfg n = .int ((n - 1) * cfg.RECORDS_PER_PAGE + 1) := by
  have hlt : (n - 1) * cfg.RECORDS_PER_PAGE < cfg.TOTAL_RECORDS := by
    by_contra hc
    have hle : cfg.TOTAL_RECORDS ≤ (n - 1) * cfg.RECORDS_PER_PAGE := by omega
    have := hT.2 hle
    omega
  exact ⟨hlt, startRow_safe cfg n (by omega) (by omega)⟩

/-- A run with constants below `2 ^ 53` in which every fetch settles: it ends,
after one request per page from 1 to the least `T` with
`T * RECORDS_PER_PAGE >= TOTAL_RECORDS`, each for its exact start row. -/
theorem run_safe (cfg : Config) (w : World) (file : Option Str)
    (ht : cfg.TOTAL_RECORDS < 2 ^ 53) (hp : 1 ≤ cfg.RECORDS_PER_PAGE)
    (hp' : cfg.RECORDS_PER_PAGE < 2 ^ 53) (hn : NeverPending cfg w.net) :
    ∃ T : Nat, totalPages cfg = .int T ∧
      IsLeast {p : Nat | cfg.TOTAL_RECORDS ≤ p * cfg.RECORDS_PER_PAGE} T ∧
      ∀ fuel, T < fuel → ∃ st, getAllRecords fuel cfg w file = some st ∧
        requestsOf st.trace = (List.range' 1 T).map
          (fun n => pageRequest cfg (.int ((n - 1) * cfg.RECORDS_PER_PAGE + 1))) ∧
        st.allData = (List.range' 1 T).flatMap (pageRecords cfg w) := by
  obtain ⟨T, hT, hleast⟩ := totalPages_safe cfg ht hp hp'
  have hTle : T ≤ cfg.TOTAL_RECORDS := hleast.2 (Nat.le_mul_of_pos_right _ hp)
  refine ⟨T, hT, hleast, fun fuel hfuel => ?_⟩
  obtain ⟨st, hst⟩ := runPages_isSome cfg w (.int T) file hn T
  refine ⟨finish st, ?_, ?_, ?_⟩
  · rw [getAllRecords_eq cfg w file T fuel hT (by omega) hfuel, hst]
    rfl
  · have hreq := runPages_requests cfg w (.int T) file T st hst
    have hfin : requestsOf (finish st).trace = requestsOf st.trace := by
      simp [finish, requestsOf_append, requestsOf]
    rw [hfin, hreq]
    apply List.map_congr_left
    intro n hn'
    rw [List.mem_range'_1] at hn'
    rw [(startRow_of_isLeast cfg T n ht hp' hleast hn'.1 (by omega)).2]
  · exact runPages_allData cfg w (.int T) file T st hst

theorem neverPending_failingNet (cfg : Config) : NeverPending cfg failingNet := by
  intro row h
  simp [fetchPage, failingNet, Response.ok] at h

theorem neverPending_secondPageFails (cfg : Config) : NeverPending cfg secondPageFails := by
  intro row h
  unfold fetchPage secondPageFails at h
  dsimp only at h
  split at h
  · rename_i hx
    split at hx <;> simp at hx
  · rename_i hx
    split at hx <;> simp at hx
  · rename_i r hx
    split at hx
    · simp only [Settled.resolved.injEq] at hx
      subst hx
      simp [Response.ok] at h
    · simp only [Settled.resolved.injEq] at hx
      subst hx
      simp [Response.ok] at h

theorem neverPending_bigPageNet (cfg : Config) (n : Nat) : NeverPending cfg (bigPageNet n) := by
  intro row h
  simp [fetchPage, bigPageNet, Response.ok] at h

theorem totalPages_sourceConfig : totalPages sourceConfig = .int 2 := by decide

/-- With a page count of `Infinity` (a page size of 0 and a positive total) the
loop condition never fails: the run does not end, whatever the fuel. -/
theorem pageLoop_endless (cfg : Config) (w : World) :
    ∀ (fuel page : Nat) (st : RunState), pageLoop cfg w .inf fuel page st = none := by
  intro fuel
  induction fuel with
  | zero => intro page st; rfl
  | succ fuel ih =>
    intro page st
    simp only [pageLoop, Num.le, if_true]
    cases pageBody cfg w Num.inf st page with
    | none => rfl
    | some st' => exact ih _ st'

theorem getAllRecords_endless (cfg : Config) (w : World) (file : Option Str) (fuel : Nat)
    (h : totalPages cfg = .inf) : getAllRecords fuel cfg w file = none := by
  unfold getAllRecords
  simp only [h, pageLoop_endless]

theorem totalPages_zero_page_size :
    totalPages { sourceConfig with RECORDS_PER_PAGE := 0 } = .inf := by decide
/-! ## A page of many rows -/

theorem fragmentsFrom_of_fragmentAt (tag s : Str) (f : Fragment) (rest : Str)
    (hf : fragmentAt tag s = some (f, rest)) :
    fragmentsFrom tag s 0 = f :: fragmentsFrom tag rest 0 := by
  have hs := fragmentAt_eq tag s f rest hf
  have htext : f.text tag = '<' :: (tag ++ f.attrs ++ ['>'] ++ f.inner ++ closing tag) := by
    simp [Fragment.text]
  have hs2 : s = '<' :: ((tag ++ f.attrs ++ ['>'] ++ f.inner ++ closing tag) ++ rest) := by
    rw [hs, htext]; rfl
  have hf2 := hf
  rw [hs2] at hf2 ⊢
  simp only [fragmentsFrom, hf2]
  have hl : (f.text tag).length - 1 =
      (tag ++ f.attrs ++ ['>'] ++ f.inner ++ closing tag).length := by
    rw [htext]; simp
  rw [hl, fragmentsFrom_skip]

theorem fragmentAt_sampleRow (rest : Str) :
    fragmentAt "tr".toList (sampleRow ++ rest) =
      some (⟨[], "<td>a</td><td>b</td><td>c</td><td>d</td>".toList⟩, rest) := by
  simp [fragmentAt, sampleRow, splitAtFirst, closing, List.isPrefixOf]

theorem rowFragments_bigPage (n : Nat) :
    rowFragments (bigPage n) = List.replicate n sampleRow := by
  unfold rowFragments bigPage
  induction n with
  | zero => rfl
  | succ n ih =>
    rw [List.replicate_succ, List.flatten_cons,
      fragmentsFrom_of_fragmentAt _ _ _ _ (fragmentAt_sampleRow _), List.map_cons, ih]
    rfl

theorem extractData_bigPage (n : Nat) :
    extractData (bigPage n) =
      .ok (List.replicate n ⟨"a".toList, "b".toList, "c".toList, "d".toList⟩) := by
  rw [extractData_eq]
  unfold specExtract
  rw [rowFragments_bigPage]
  have h : recordOfRow sampleRow =
      some ⟨"a".toList, "b".toList, "c".toList, "d".toList⟩ := by rfl
  have hl : (List.replicate n sampleRow).filterMap recordOfRow =
      List.replicate n ⟨"a".toList, "b".toList, "c".toList, "d".toList⟩ := by
    induction n with
    | zero => rfl
    | succ n ih => rw [List.replicate_succ, List.filterMap_cons, h, ih, List.replicate_succ]
  rw [hl]

theorem fetchPage_bigPageNet (cfg : Config) (n : Nat) (row : Num) :
    (fetchPage cfg (bigPageNet n) row).2 = .resolved (bigPage n) := by
  simp [fetchPage, bigPageNet, Response.ok]

theorem extractedRecords_bigPageNet (cfg : Config) (n page : Nat) :
    extractedRecords cfg (bigPageNet n) page =
      List.replicate n ⟨"a".toList, "b".toList, "c".toList, "d".toList⟩ := by
  unfold extractedRecords
  rw [fetchPage_bigPageNet]
  simp only [extractData_bigPage]

theorem fetchSucceeds_bigPageNet (cfg : Config) (n page : Nat) :
    fetchSucceeds cfg (bigPageNet n) page = true := by
  unfold fetchSucceeds
  rw [fetchPage_bigPageNet]

theorem pageAppended_bigPageNet (cfg : Config) (n page limit : Nat) (h : limit < n) :
    pageAppended cfg ⟨bigPageNet n, fun _ => .done, limit⟩ page = false := by
  unfold pageAppended
  simp only [extractedRecords_bigPageNet, fetchSucceeds_bigPageNet, List.length_replicate]
  simp
  omega

/-- A one-page run on a page with more rows than the spread limit. -/
theorem run_bigPage (cfg : Config) (n limit : Nat) (h : limit < n)
    (hT : totalPages cfg = .int 1) :
    ∃ st, getAllRecords 2 cfg ⟨bigPageNet n, fun _ => .done, limit⟩ none = some st ∧
      st.allData = [] ∧ st.file = none ∧
      st.trace.getLast? =
        some (.log "\nDone! Saved 0 records to member_records.txt".toList) := by
  have happ := pageAppended_bigPageNet cfg n 1 limit h
  obtain ⟨st, hst⟩ := runPages_isSome cfg ⟨bigPageNet n, fun _ => .done, limit⟩ (.int 1) none
    (neverPending_bigPageNet _ _) 1
  obtain ⟨st0, hst0, hb⟩ := runPages_step _ _ _ _ 0 st hst
  have h0 : st0 = initialState none := by
    simp only [runPages, List.range'_zero, List.foldlM_nil] at hst0
    cases hst0
    rfl
  subst h0
  obtain ⟨hdata, _, hfile⟩ := pageBody_spec _ _ _ _ _ _ hb
  have hrec0 : pageRecords cfg ⟨bigPageNet n, fun _ => .done, limit⟩ 1 = [] := by
    unfold pageRecords
    rw [happ]
    rfl
  rw [hrec0] at hdata
  rw [happ] at hfile
  have hdata' : st.allData = [] := hdata
  refine ⟨finish st, ?_, hdata', hfile, ?_⟩
  · rw [getAllRecords_eq _ _ _ 1 2 hT (by decide) (by decide), hst]
    rfl
  · simp only [finish, hdata', List.getLast?_concat]
    rfl
/-! ## A throttled run -/

theorem delayFirst_sound :
    ∀ (es : List Event) (m : Nat) (req : Request), delayFirst es = true →
      es.get? m = some (.request req) → ∃ k, k < m ∧ es.get? k = some (.delay 2000) := by
  intro es
  induction es with
  | nil => intro m req _ hm; simp at hm
  | cons e es ih =>
    intro m req hd hm
    cases m with
    | zero =>
      simp only [List.get?_cons_zero, Option.some.injEq] at hm
      subst hm
      simp [delayFirst] at hd
    | succ m =>
      simp only [List.get?_cons_succ] at hm
      cases e with
      | request r => simp [delayFirst] at hd
      | delay ms =>
        by_cases h2 : ms = 2000
        · subst h2
          exact ⟨0, Nat.succ_pos m, rfl⟩
        · have hd' : delayFirst es = true := by simpa [delayFirst, h2] using hd
          obtain ⟨k, hk, hk'⟩ := ih m req hd' hm
          exact ⟨k + 1, Nat.succ_lt_succ hk, hk'⟩
      | log msg =>
        obtain ⟨k, hk, hk'⟩ := ih m req (by simpa [delayFirst] using hd) hm
        exact ⟨k + 1, Nat.succ_lt_succ hk, hk'⟩
      | logError msg err =>
        obtain ⟨k, hk, hk'⟩ := ih m req (by simpa [delayFirst] using hd) hm
        exact ⟨k + 1, Nat.succ_lt_succ hk, hk'⟩
      | writeFile path content =>
        obtain ⟨k, hk, hk'⟩ := ih m req (by simpa [delayFirst] using hd) hm
        exact ⟨k + 1, Nat.succ_lt_succ hk, hk'⟩

theorem gapsDelayed_sound : ∀ es : List Event, gapsDelayed es = true → Throttled es := by
  intro es
  induction es with
  | nil => intro _ i j r₁ r₂ _ hi; simp at hi
  | cons e es ih =>
    intro hg i j r₁ r₂ hij hi hj
    have htail : gapsDelayed es = true := by
      cases e <;> simp_all [gapsDelayed]
    obtain ⟨j', rfl⟩ : ∃ j', j = j' + 1 := ⟨j - 1, by omega⟩
    simp only [List.get?_cons_succ] at hj
    cases i with
    | zero =>
      simp only [List.get?_cons_zero, Option.some.injEq] at hi
      subst hi
      have hd : delayFirst es = true := by
        simp only [gapsDelayed, Bool.and_eq_true] at hg
        exact hg.1
      obtain ⟨k, hk, hk'⟩ := delayFirst_sound es j' r₂ hd hj
      exact ⟨k + 1, Nat.succ_pos k, Nat.succ_lt_succ hk, hk'⟩
    | succ i' =>
      simp only [List.get?_cons_succ] at hi
      obtain ⟨k, hk1, hk2, hk3⟩ := ih htail i' j' r₁ r₂ (by omega) hi hj
      exact ⟨k + 1, Nat.succ_lt_succ hk1, Nat.succ_lt_succ hk2, hk3⟩

theorem throttled_when_first_page_succeeds :
    ∃ st, getAllRecords 3 sourceConfig (plainWorld secondPageFails) none = some st ∧
      Throttled st.trace :=
  ⟨_, rfl, gapsDelayed_sound _ rfl⟩

/-! ## The claims -/

/-- C1: for every HTML string `extractData` returns without throwing and gives,
in document order, one record for each row fragment that has at least four cell
fragments and nothing for a row fragment with fewer; the record holds the
trimmed inner texts of the first four cells and later cells are ignored.  A row
with cells A, B, C, D gives the record of A, B, C, D; a row with three cells
gives no record; a row with six cells gives the record of its first four. -/
theorem extractData_one_record_per_row :
    (∀ html : Str, extractData html =
      .ok ((rowFragments html).filterMap fun row =>
        match cellValues row with
        | c1 :: c2 :: c3 :: c4 :: _ => some ⟨c1, c2, c3, c4⟩
        | _ => none)) ∧
    extractData "<tr><td>A</td><td>B</td><td>C</td><td>D</td></tr>".toList =
      .ok [⟨"A".toList, "B".toList, "C".toList, "D".toList⟩] ∧
    extractData "<tr><td>A</td><td>B</td><td>C</td></tr>".toList = .ok [] ∧
    extractData
        "<tr><td> A </td><td>\tB</td><td>C\n</td><td>D</td><td>E</td><td>F</td></tr>".toList =
      .ok [⟨"A".toList, "B".toList, "C".toList, "D".toList⟩] := by
  refine ⟨fun html => ?_, rfl, rfl, rfl⟩
  rw [extractData_eq]
  rfl

/-- C2 fails on the code: a page whose fetch succeeded contributes nothing when
it has more rows than the engine can spread into one call.  The server answers
with status 200 and 130000 rows of four cells: the fetch succeeds,
`extractData` returns 130000 records, `allData.push(...pageData)` throws a
RangeError that the `catch` clause logs, and the run ends with an empty
`allData` and no file written. -/
theorem large_page_dropped_by_spread :
    fetchSucceeds onePageConfig (bigPageNet 130000) 1 = true ∧
    extractedRecords onePageConfig (bigPageNet 130000) 1 =
      List.replicate 130000 ⟨"a".toList, "b".toList, "c".toList, "d".toList⟩ ∧
    ∃ st, getAllRecords 2 onePageConfig (plainWorld (bigPageNet 130000)) none = some st ∧
      st.allData = [] ∧ st.file = none ∧
      st.trace.getLast? = some (.log "\nDone! Saved 0 records to member_records.txt".toList) :=
  ⟨fetchSucceeds_bigPageNet _ _ _, extractedRecords_bigPageNet _ _ _,
    run_bigPage onePageConfig 130000 125000 (by decide) (by decide)⟩

/-- C3, as stated, fails: when the only fetch so far threw, the iteration ends
without writing, so the file still holds what it held before the run while the
accumulated set is empty; so it is at the end of a run whose fetches all fail. -/
theorem file_stale_when_first_page_fails :
    (∃ st, runPages sourceConfig (plainWorld failingNet) (totalPages sourceConfig)
        (some "old, old, old, old".toList) 1 = some st ∧
      st.file = some "old, old, old, old".toList ∧ st.allData = [] ∧
      st.file ≠ some (render st.allData)) ∧
    (∃ st, getAllRecords 3 sourceConfig (plainWorld failingNet)
        (some "old, old, old, old".toList) = some st ∧
      st.file = some "old, old, old, old".toList ∧ st.allData = [] ∧
      st.file ≠ some (render st.allData)) := by
  refine ⟨⟨_, rfl, rfl, rfl, ?_⟩, ⟨_, rfl, rfl, rfl, ?_⟩⟩ <;> decide

theorem runPages_file_of_written (cfg : Config) (w : World) (pages : Num) (file : Option Str)
    (j : Nat) (happ : pageAppended cfg w j = true) (hw : w.writeFile j = .done) :
    ∀ k st, j ≤ k → 1 ≤ j → runPages cfg w pages file k = some st →
      (∀ i, j < i → i ≤ k → pageAppended cfg w i = false) →
      st.file = some (render st.allData) := by
  intro k
  induction k with
  | zero => intro st h1 h2; omega
  | succ k ih =>
    intro st' hjk hj1 hrun hlast
    obtain ⟨st, hst, hb⟩ := runPages_step cfg w pages file k st' hrun
    obtain ⟨hdata, _, hfile⟩ := pageBody_spec cfg w pages st st' (k + 1) hb
    rcases Nat.eq_or_lt_of_le hjk with heq | hlt
    · subst heq
      rw [happ, hw] at hfile
      exact hfile
    · have hno : pageAppended cfg w (k + 1) = false := hlast (k + 1) hlt (Nat.le_refl _)
      rw [hno] at hfile
      have hrec : pageRecords cfg w (k + 1) = [] := by
        unfold pageRecords
        rw [hno]
        rfl
      rw [hrec, List.append_nil] at hdata
      have hprev := ih st (by omega) hj1 hst (fun i h1 h2 => hlast i h1 (by omega))
      have hfile' : st'.file = st.file := hfile
      rw [hfile', hdata, hprev]

/-- C3, amended: at the end of the iteration for page `k`, if the records of at
least one of the pages 1 to `k` were appended (its fetch succeeded and the
spread in `push` did not throw) and the file write of the latest such page `j`
did not throw, the file content is the rendering of the whole `allData`
gathered so far, whatever the file held before; so it is at the end of the
run. -/
theorem file_holds_render_after_write (cfg : Config) (w : World) (file : Option Str)
    (k j : Nat) (st : RunState)
    (hrun : runPages cfg w (totalPages cfg) file k = some st)
    (hj1 : 1 ≤ j) (hjk : j ≤ k)
    (happ : pageAppended cfg w j = true) (hw : w.writeFile j = .done)
    (hlast : ∀ i, j < i → i ≤ k → pageAppended cfg w i = false) :
    st.file = some (render st.allData) ∧
    (∀ fuel, totalPages cfg = .int k → k < 2 ^ 53 → k < fuel →
      ∃ st', getAllRecords fuel cfg w file = some st' ∧
        st'.file = some (render st'.allData)) := by
  have h1 := runPages_file_of_written cfg w (totalPages cfg) file j happ hw k st hjk hj1 hrun
    hlast
  refine ⟨h1, fun fuel hT hk hfuel => ⟨finish st, ?_, h1⟩⟩
  rw [getAllRecords_eq cfg w file k fuel hT hk hfuel, ← hT, hrun]
  rfl

theorem file_holds_render_after_write_witness :
    ∃ st, runPages sourceConfig (plainWorld secondPageFails) (totalPages sourceConfig)
        (some "old, old, old, old".toList) 2 = some st ∧
      1 ≤ 1 ∧ 1 ≤ 2 ∧ pageAppended sourceConfig (plainWorld secondPageFails) 1 = true ∧
      (plainWorld secondPageFails).writeFile 1 = .done ∧
      (∀ i, 1 < i → i ≤ 2 → pageAppended sourceConfig (plainWorld secondPageFails) i = false) ∧
      st.file = some "Ann, Lee, 42, NY".toList ∧
      (st.file = some (render st.allData) ∧
      (∀ fuel, totalPages sourceConfig = .int 2 → 2 < 2 ^ 53 → 2 < fuel →
        ∃ st', getAllRecords fuel sourceConfig (plainWorld secondPageFails)
            (some "old, old, old, old".toList) = some st' ∧
          st'.file = some (render st'.allData))) :=
  ⟨_, rfl, by decide, by decide, rfl, rfl,
    fun i h1 h2 => by
      have hi : i = 2 := by omega
      subst hi
      rfl,
    rfl,
    file_holds_render_after_write sourceConfig (plainWorld secondPageFails)
      (some "old, old, old, old".toList) 2 1 _ rfl (by decide) (by decide) rfl rfl
      (fun i h1 h2 => by
        have hi : i = 2 := by omega
        subst hi
        rfl)⟩

/-- C4, as stated, fails: a cell whose text contains a line feed gives one
record that is rendered on two lines. -/
theorem render_newline_in_cell :
    extractData brokenLinePage =
      .ok [⟨"Ann\nLee".toList, "b".toList, "c".toList, "d".toList⟩] ∧
    lines (render [⟨"Ann\nLee".toList, "b".toList, "c".toList, "d".toList⟩]) =
      ["Ann".toList, "Lee, b, c, d".toList] ∧
    (lines (render [⟨"Ann\nLee".toList, "b".toList, "c".toList, "d".toList⟩])).length ≠
      [(⟨"Ann\nLee".toList, "b".toList, "c".toList, "d".toList⟩ : Record)].length := by
  refine ⟨rfl, rfl, ?_⟩
  decide

/-- C4, amended: when `extractData` returns `n >= 1` records and no field of
them contains a line feed, the rendering has exactly `n` lines and its k-th
line is the k-th record's four fields joined by `", "`. -/
theorem render_one_line_per_record (html : Str) (records : List Record)
    (hx : extractData html = .ok records) (hn : 1 ≤ records.length)
    (hf : ∀ r ∈ records,
      '\n' ∉ r.column1 ∧ '\n' ∉ r.column2 ∧ '\n' ∉ r.column3 ∧ '\n' ∉ r.column4) :
    (lines (render records)).length = records.length ∧
    lines (render records) = records.map (fun r =>
      r.column1 ++ ", ".toList ++ r.column2 ++ ", ".toList ++ r.column3 ++ ", ".toList ++
        r.column4) := by
  have hne : records.map recordLine ≠ [] := by
    cases records with
    | nil => simp at hn
    | cons r rs => simp
  have hno : ∀ l ∈ records.map recordLine, '\n' ∉ l := by
    intro l hl
    obtain ⟨r, hr, rfl⟩ := List.mem_map.mp hl
    exact recordLine_no_newline r (hf r hr)
  have h := lines_intercalate (records.map recordLine) hne hno
  have h' : lines (render records) = records.map recordLine := h
  refine ⟨by rw [h', List.length_map], h'⟩

set_option maxRecDepth 100000 in
theorem render_one_line_per_record_witness :
    extractData twoRowPage =
      .ok [⟨"cell1".toList, "cell2".toList, "cell3".toList, "cell4".toList⟩,
        ⟨"cell1".toList, "cell2".toList, "cell3".toList, "cell4".toList⟩] ∧
    (lines (render [⟨"cell1".toList, "cell2".toList, "cell3".toList, "cell4".toList⟩,
        ⟨"cell1".toList, "cell2".toList, "cell3".toList, "cell4".toList⟩])).length = 2 ∧
    lines (render [⟨"cell1".toList, "cell2".toList, "cell3".toList, "cell4".toList⟩,
        ⟨"cell1".toList, "cell2".toList, "cell3".toList, "cell4".toList⟩]) =
      ["cell1, cell2, cell3, cell4".toList, "cell1, cell2, cell3, cell4".toList] :=
  ⟨rfl,
    render_one_line_per_record twoRowPage
      [⟨"cell1".toList, "cell2".toList, "cell3".toList, "cell4".toList⟩,
        ⟨"cell1".toList, "cell2".toList, "cell3".toList, "cell4".toList⟩]
      rfl (by decide) (by decide)⟩

/-- C5: for every input without a row-opening marker `<tr` or without the
row-closing marker `</tr>`, the empty string and malformed markup included,
`extractData` does not throw and returns the empty array. -/
theorem extractData_no_row_marker (html : Str)
    (h : ¬ "<tr".toList <:+: html ∨ ¬ "</tr>".toList <:+: html) :
    extractData html = .ok [] :=
  extractData_no_markers html h

theorem extractData_no_row_marker_witness :
    (¬ "<tr".toList <:+: "<table><tr><td>a</td><td>b</td>".toList ∨
      ¬ "</tr>".toList <:+: "<table><tr><td>a</td><td>b</td>".toList) ∧
    extractData "<table><tr><td>a</td><td>b</td>".toList = .ok [] :=
  ⟨by decide, extractData_no_row_marker "<table><tr><td>a</td><td>b</td>".toList (by decide)⟩

/-- C6, as stated, fails: with a total of `2 ^ 54` and pages of 3 the quotient
`2 ^ 54 / 3` is rounded down to the Number 6004799503160661 before
`Math.ceil`, so the Driver iterates over 6004799503160661 pages, which is not
the ceiling: 6004799503160661 pages of 3 do not reach the total. -/
theorem totalPages_rounded_quotient :
    totalPages hugeTotalConfig = .int 6004799503160661 ∧
    ¬ hugeTotalConfig.TOTAL_RECORDS ≤ 6004799503160661 * hugeTotalConfig.RECORDS_PER_PAGE ∧
    ∃ st, getAllRecords 6004799503160662 hugeTotalConfig (plainWorld failingNet) none =
        some st ∧
      (requestsOf st.trace).length = 6004799503160661 := by
  have hT : totalPages hugeTotalConfig = .int 6004799503160661 := by decide
  refine ⟨hT, by decide, ?_⟩
  obtain ⟨st, hst⟩ := runPages_isSome hugeTotalConfig (plainWorld failingNet)
    (.int 6004799503160661) none (neverPending_failingNet _) 6004799503160661
  refine ⟨finish st, ?_, ?_⟩
  · rw [getAllRecords_eq _ _ _ 6004799503160661 _ hT (by decide) (by decide), hst]
    rfl
  · have hreq := runPages_requests _ _ _ _ _ st hst
    have hfin : requestsOf (finish st).trace = requestsOf st.trace := by
      simp [finish, requestsOf_append, requestsOf]
    rw [hfin, hreq, List.length_map, List.length_range']

/-- C6, amended: for every total record count and every page size of at least
1, both below `2 ^ 53`, `Math.ceil(TOTAL_RECORDS / RECORDS_PER_PAGE)` is the
least `p` with `p * RECORDS_PER_PAGE >= TOTAL_RECORDS`, and a run in which
every fetch settles ends after iterating over exactly that many pages (one
fetch each). -/
theorem totalPages_ceiling (cfg : Config) (w : World) (file : Option Str)
    (ht : cfg.TOTAL_RECORDS < 2 ^ 53) (hp : 1 ≤ cfg.RECORDS_PER_PAGE)
    (hp' : cfg.RECORDS_PER_PAGE < 2 ^ 53) (hn : NeverPending cfg w.net) :
    ∃ T : Nat, totalPages cfg = .int T ∧
      IsLeast {p : Nat | cfg.TOTAL_RECORDS ≤ p * cfg.RECORDS_PER_PAGE} T ∧
      ∀ fuel, T < fuel → ∃ st, getAllRecords fuel cfg w file = some st ∧
        (requestsOf st.trace).length = T := by
  obtain ⟨T, hT, hleast, hrun⟩ := run_safe cfg w file ht hp hp' hn
  refine ⟨T, hT, hleast, fun fuel hfuel => ?_⟩
  obtain ⟨st, hst, hreq, _⟩ := hrun fuel hfuel
  exact ⟨st, hst, by rw [hreq, List.length_map, List.length_range']⟩

theorem totalPages_ceiling_witness :
    sourceConfig.TOTAL_RECORDS < 2 ^ 53 ∧ 1 ≤ sourceConfig.RECORDS_PER_PAGE ∧
    sourceConfig.RECORDS_PER_PAGE < 2 ^ 53 ∧
    NeverPending sourceConfig (plainWorld secondPageFails).net ∧
    totalPages sourceConfig = .int 2 ∧
    ∃ T : Nat, totalPages sourceConfig = .int T ∧
      IsLeast {p : Nat | sourceConfig.TOTAL_RECORDS ≤ p * sourceConfig.RECORDS_PER_PAGE} T ∧
      ∀ fuel, T < fuel →
        ∃ st, getAllRecords fuel sourceConfig (plainWorld secondPageFails) none = some st ∧
          (requestsOf st.trace).length = T :=
  ⟨by decide, by decide, by decide, neverPending_secondPageFails _, totalPages_sourceConfig,
    totalPages_ceiling sourceConfig (plainWorld secondPageFails) none (by decide) (by decide)
      (by decide) (neverPending_secondPageFails _)⟩

/-- C7, as stated, fails: with pages of `2 ^ 53` records the start row of page 2,
`(2 - 1) * 2 ^ 53 + 1`, is not a Number; it is rounded to `2 ^ 53`, and the
second request of the run carries `StartRow=9007199254740992`. -/
theorem startRow_rounded :
    totalPages hugePageConfig = .int 2 ∧
    (2 - 1) * hugePageConfig.RECORDS_PER_PAGE + 1 = 9007199254740993 ∧
    startRow hugePageConfig 2 = .int 9007199254740992 ∧
    ∃ st, getAllRecords 3 hugePageConfig (plainWorld failingNet) none = some st ∧
      (requestsOf st.trace).get? 1 =
        some (pageRequest hugePageConfig (.int 9007199254740992)) ∧
      (pageRequest hugePageConfig (.int 9007199254740992)).body.getLast? =
        some ("StartRow".toList, "9007199254740992".toList) := by
  refine ⟨by decide, by decide, by decide, _, rfl, ?_, ?_⟩ <;> decide

/-- C7, amended: for a total and a page size of at least 1, both below
`2 ^ 53`, and every page index `n` from 1 to the page count, the start row
that `getAllRecords` passes to `fetchPage` for its n-th fetch (in a run in
which every fetch settles) is `(n - 1) * RECORDS_PER_PAGE + 1`, a positive
integer, sent as its decimal digits. -/
theorem startRow_passed_to_fetchPage (cfg : Config) (w : World) (file : Option Str)
    (T n fuel : Nat) (ht : cfg.TOTAL_RECORDS < 2 ^ 53) (hp : 1 ≤ cfg.RECORDS_PER_PAGE)
    (hp' : cfg.RECORDS_PER_PAGE < 2 ^ 53) (hn : NeverPending cfg w.net)
    (hT : totalPages cfg = .int T) (h1 : 1 ≤ n) (h2 : n ≤ T) (hfuel : T < fuel) :
    ∃ m : Nat, startRow cfg n = .int m ∧
      (m : ℤ) = ((n : ℤ) - 1) * (cfg.RECORDS_PER_PAGE : ℤ) + 1 ∧ 0 < m ∧
      (pageRequest cfg (.int m)).body.getLast? = some ("StartRow".toList, Nat.toDigits 10 m) ∧
      ∃ st, getAllRecords fuel cfg w file = some st ∧
        (requestsOf st.trace).get? (n - 1) = some (pageRequest cfg (.int m)) := by
  obtain ⟨T', hT', hleast, hrun⟩ := run_safe cfg w file ht hp hp' hn
  have hTT : T' = T := by
    rw [hT] at hT'
    exact (Num.int.inj hT').symm
  subst hTT
  obtain ⟨hle, hstart⟩ := startRow_of_isLeast cfg T' n ht hp' hleast h1 h2
  obtain ⟨st, hst, hreq, _⟩ := hrun fuel hfuel
  refine ⟨(n - 1) * cfg.RECORDS_PER_PAGE + 1, hstart, ?_, Nat.succ_pos _, ?_, st, hst, ?_⟩
  · obtain ⟨k, rfl⟩ : ∃ k, n = k + 1 := ⟨n - 1, by omega⟩
    simp
  · show some ("StartRow".toList, numToStr (.int ((n - 1) * cfg.RECORDS_PER_PAGE + 1))) = _
    rw [numToStr_safe _ (by omega)]
  · rw [hreq, List.get?_eq_getElem?, List.getElem?_map,
      List.getElem?_range' 1 1 (by omega : n - 1 < T')]
    have hn' : 1 + 1 * (n - 1) = n := by omega
    simp [hn']

theorem startRow_passed_to_fetchPage_witness :
    sourceConfig.TOTAL_RECORDS < 2 ^ 53 ∧ 1 ≤ sourceConfig.RECORDS_PER_PAGE ∧
    sourceConfig.RECORDS_PER_PAGE < 2 ^ 53 ∧
    NeverPending sourceConfig (plainWorld failingNet).net ∧
    totalPages sourceConfig = .int 2 ∧ 1 ≤ 2 ∧ 2 ≤ 2 ∧ 2 < 3 ∧
    startRow sourceConfig 1 = .int 1 ∧ startRow sourceConfig 2 = .int 51 ∧
    ∃ m : Nat, startRow sourceConfig 2 = .int m ∧
      (m : ℤ) = (((2 : ℕ) : ℤ) - 1) * (sourceConfig.RECORDS_PER_PAGE : ℤ) + 1 ∧ 0 < m ∧
      (pageRequest sourceConfig (.int m)).body.getLast? =
        some ("StartRow".toList, Nat.toDigits 10 m) ∧
      ∃ st, getAllRecords 3 sourceConfig (plainWorld failingNet) none = some st ∧
        (requestsOf st.trace).get? (2 - 1) = some (pageRequest sourceConfig (.int m)) :=
  ⟨by decide, by decide, by decide, neverPending_failingNet _, totalPages_sourceConfig,
    by decide, by decide, by decide, by decide, by decide,
    startRow_passed_to_fetchPage sourceConfig (plainWorld failingNet) none 2 2 3 (by decide)
      (by decide) (by decide) (neverPending_failingNet _) totalPages_sourceConfig (by decide)
      (by decide) (by decide)⟩

/-- C8, as stated, fails: the response has the success status 200, but reading
its body fails; `fetchPage` returns `response.text()` and so fails as well,
with the read error. -/
theorem fetchPage_fails_on_unreadable_body :
    brokenBodyNet (pageRequest sourceConfig (.int 1)) =
      .resolved ⟨200, .rejected ⟨"FetchError: Premature close".toList⟩⟩ ∧
    (200 ≤ 200 ∧ 200 < 300) ∧
    (fetchPage sourceConfig brokenBodyNet (.int 1)).2 =
      .rejected ⟨"FetchError: Premature close".toList⟩ := by
  refine ⟨rfl, by decide, rfl⟩

/-- C8, amended: whatever the start row and the response to the request that
`fetchPage` sends, `fetchPage` sends exactly that one request; if the status is
outside 200..299 it throws an error whose message carries the status code; if
the status is in 200..299 it ends as `response.text()` ends, returning the body
text unchanged when the body is read and throwing the read error when it is
not; so it throws exactly when the status is outside 200..299 or reading the
body fails. -/
theorem fetchPage_fails_iff_status (cfg : Config) (net : Network) (row : Num)
    (response : Response) (h : net (pageRequest cfg row) = .resolved response) :
    (fetchPage cfg net row).1 = [pageRequest cfg row] ∧
    (¬ (200 ≤ response.status ∧ response.status < 300) →
      (fetchPage cfg net row).2 =
        .rejected ⟨"Request failed with status ".toList ++
          numToStr (Num.ofNat response.status)⟩) ∧
    (response.status < 2 ^ 53 →
      numToStr (Num.ofNat response.status) = Nat.toDigits 10 response.status) ∧
    ((200 ≤ response.status ∧ response.status < 300) →
      (fetchPage cfg net row).2 = response.text) ∧
    ((200 ≤ response.status ∧ response.status < 300) → ∀ body,
      response.text = .resolved body → (fetchPage cfg net row).2 = .resolved body) ∧
    ((∃ e, (fetchPage cfg net row).2 = .rejected e) ↔
      (¬ (200 ≤ response.status ∧ response.status < 300) ∨
        ∃ e, response.text = .rejected e)) := by
  have hok : response.ok = true ↔ (200 ≤ response.status ∧ response.status < 300) := by
    simp [Response.ok]
  have hbad : ¬ (200 ≤ response.status ∧ response.status < 300) →
      (fetchPage cfg net row).2 =
        .rejected ⟨"Request failed with status ".toList ++
          numToStr (Num.ofNat response.status)⟩ := by
    intro hs
    have hs' : response.ok = false := by
      cases hr : response.ok with
      | false => rfl
      | true => exact absurd (hok.mp hr) hs
    unfold fetchPage
    simp [h, hs']
  have hgood : (200 ≤ response.status ∧ response.status < 300) →
      (fetchPage cfg net row).2 = response.text := by
    intro hs
    unfold fetchPage
    simp [h, hok.mpr hs]
  refine ⟨fetchPage_sent cfg net row, hbad, ?_, hgood, ?_, ?_⟩
  · intro hs
    rw [ofNat_of_le _ (Nat.le_of_lt hs), numToStr_safe _ hs]
  · intro hs body hb
    rw [hgood hs, hb]
  · by_cases hs : (200 ≤ response.status ∧ response.status < 300)
    · rw [hgood hs]
      constructor
      · rintro ⟨e, he⟩
        exact Or.inr ⟨e, he⟩
      · rintro (hc | ⟨e, he⟩)
        · exact absurd hs hc
        · exact ⟨e, he⟩
    · rw [hbad hs]
      exact ⟨fun _ => Or.inl hs, fun _ => ⟨_, rfl⟩⟩

theorem fetchPage_fails_iff_status_witness :
    failingNet (pageRequest sourceConfig (.int 51)) = .resolved ⟨500, .resolved []⟩ ∧
    (fetchPage sourceConfig failingNet (.int 51)).2 =
      .rejected ⟨"Request failed with status 500".toList⟩ ∧
    ((fetchPage sourceConfig failingNet (.int 51)).1 = [pageRequest sourceConfig (.int 51)] ∧
    (¬ (200 ≤ (⟨500, .resolved []⟩ : Response).status ∧
        (⟨500, .resolved []⟩ : Response).status < 300) →
      (fetchPage sourceConfig failingNet (.int 51)).2 =
        .rejected ⟨"Request failed with status ".toList ++
          numToStr (Num.ofNat (⟨500, .resolved []⟩ : Response).status)⟩) ∧
    ((⟨500, .resolved []⟩ : Response).status < 2 ^ 53 →
      numToStr (Num.ofNat (⟨500, .resolved []⟩ : Response).status) =
        Nat.toDigits 10 (⟨500, .resolved []⟩ : Response).status) ∧
    ((200 ≤ (⟨500, .resolved []⟩ : Response).status ∧
        (⟨500, .resolved []⟩ : Response).status < 300) →
      (fetchPage sourceConfig failingNet (.int 51)).2 =
        (⟨500, .resolved []⟩ : Response).text) ∧
    ((200 ≤ (⟨500, .resolved []⟩ : Response).status ∧
        (⟨500, .resolved []⟩ : Response).status < 300) → ∀ body,
      (⟨500, .resolved []⟩ : Response).text = .resolved body →
        (fetchPage sourceConfig failingNet (.int 51)).2 = .resolved body) ∧
    ((∃ e, (fetchPage sourceConfig failingNet (.int 51)).2 = .rejected e) ↔
      (¬ (200 ≤ (⟨500, .resolved []⟩ : Response).status ∧
          (⟨500, .resolved []⟩ : Response).status < 300) ∨
        ∃ e, (⟨500, .resolved []⟩ : Response).text = .rejected e))) :=
  ⟨rfl, rfl, fetchPage_fails_iff_status sourceConfig failingNet (.int 51) ⟨500, .resolved []⟩ rfl⟩

/-- C9 fails on the code: when the fetch of page 1 throws, the `catch` clause
is reached before the timer is started, and the fetch of page 2 follows with
no delay in between.  Here the server answers every request with status 500:
the trace holds the two requests at positions 1 and 4 and no delay at all. -/
theorem no_delay_after_failed_page :
    ∃ st, getAllRecords 3 sourceConfig (plainWorld failingNet) none = some st ∧
      st.trace.get? 1 = some (.request (pageRequest sourceConfig (.int 1))) ∧
      st.trace.get? 4 = some (.request (pageRequest sourceConfig (.int 51))) ∧
      (∀ k, st.trace.get? k ≠ some (.delay 2000)) ∧
      ¬ Throttled st.trace := by
  refine ⟨_, rfl, rfl, rfl, ?_⟩
  have hno : ∀ k, (finish ⟨[], none,
      [.log "Fetching page 1 of 2".toList, .request (pageRequest sourceConfig (.int 1)),
        .logError "Error fetching page 1:".toList ⟨"Request failed with status 500".toList⟩,
        .log "Fetching page 2 of 2".toList, .request (pageRequest sourceConfig (.int 51)),
        .logError "Error fetching page 2:".toList
          ⟨"Request failed with status 500".toList⟩]⟩).trace.get? k ≠
      some (.delay 2000) := by
    intro k hk
    have hmem := List.get?_mem hk
    revert hmem
    decide
  refine ⟨hno, fun hthr => ?_⟩
  obtain ⟨k, _, _, hk⟩ := hthr 1 4 _ _ (by decide) rfl rfl
  exact hno k hk

/-- C10, as stated, fails: with a total of `2 ^ 54` and pages of `2 ^ 53` rows
there are 2 pages; the start row of page 2 is rounded to `2 ^ 53`, the last row
of the range of page 1, so the two requested ranges overlap, and the last row
`2 ^ 54` lies in neither. -/
theorem page_ranges_overlap_when_rounded :
    totalPages hugePageConfig = .int 2 ∧
    startRow hugePageConfig 1 = .int 1 ∧
    startRow hugePageConfig 2 = .int 9007199254740992 ∧
    (∃ st, getAllRecords 3 hugePageConfig (plainWorld failingNet) none = some st ∧
      requestsOf st.trace =
        [pageRequest hugePageConfig (.int 1),
          pageRequest hugePageConfig (.int 9007199254740992)]) ∧
    ¬ 1 + hugePageConfig.RECORDS_PER_PAGE - 1 < 9007199254740992 ∧
    hugePageConfig.TOTAL_RECORDS = 2 ^ 54 ∧
    ¬ (1 ≤ 2 ^ 54 ∧ 2 ^ 54 ≤ 1 + hugePageConfig.RECORDS_PER_PAGE - 1) ∧
    ¬ (9007199254740992 ≤ 2 ^ 54 ∧
      2 ^ 54 ≤ 9007199254740992 + hugePageConfig.RECORDS_PER_PAGE - 1) := by
  refine ⟨by decide, by decide, by decide, ⟨_, rfl, ?_⟩, by decide, rfl, by decide, by decide⟩
  decide

/-- C10, amended: for every total of at least 1 and page size of at least 1,
both below `2 ^ 53`, a run in which every fetch settles requests, for the pages
`n = 1 .. totalPages` in order, the start rows `(n - 1) * RECORDS_PER_PAGE + 1`;
the row ranges `[start n, start n + RECORDS_PER_PAGE - 1]` are consecutive and
pairwise disjoint, every row from 1 to the total lies in exactly one of them,
and the start row of the last page is at most the total. -/
theorem page_ranges_partition (cfg : Config) (w : World) (file : Option Str)
    (ht1 : 1 ≤ cfg.TOTAL_RECORDS) (ht : cfg.TOTAL_RECORDS < 2 ^ 53)
    (hp : 1 ≤ cfg.RECORDS_PER_PAGE) (hp' : cfg.RECORDS_PER_PAGE < 2 ^ 53)
    (hn : NeverPending cfg w.net) :
    ∃ T : Nat, totalPages cfg = .int T ∧ 1 ≤ T ∧
      (∀ n, 1 ≤ n → n ≤ T → startRow cfg n = .int (exactStart cfg n)) ∧
      (∀ fuel, T < fuel → ∃ st, getAllRecords fuel cfg w file = some st ∧
        requestsOf st.trace =
          (List.range' 1 T).map (fun n => pageRequest cfg (.int (exactStart cfg n)))) ∧
      (∀ n, 1 ≤ n →
        exactStart cfg (n + 1) = (exactStart cfg n + cfg.RECORDS_PER_PAGE - 1) + 1) ∧
      (∀ n m, 1 ≤ n → n < m →
        exactStart cfg n + cfg.RECORDS_PER_PAGE - 1 < exactStart cfg m) ∧
      (∀ r, 1 ≤ r → r ≤ cfg.TOTAL_RECORDS →
        ∃! n, 1 ≤ n ∧ n ≤ T ∧
          exactStart cfg n ≤ r ∧ r ≤ exactStart cfg n + cfg.RECORDS_PER_PAGE - 1) ∧
      exactStart cfg T ≤ cfg.TOTAL_RECORDS := by
  obtain ⟨T, hT, hleast, hrun⟩ := run_safe cfg w file ht hp hp' hn
  obtain ⟨hmem, hlb⟩ := hleast
  have hmem' : cfg.TOTAL_RECORDS ≤ T * cfg.RECORDS_PER_PAGE := hmem
  have hP : 1 ≤ T := by
    by_contra hc
    have h0 : T = 0 := by omega
    rw [h0] at hmem'
    omega
  have hlast : (T - 1) * cfg.RECORDS_PER_PAGE < cfg.TOTAL_RECORDS := by
    by_contra hc
    have hle : cfg.TOTAL_RECORDS ≤ (T - 1) * cfg.RECORDS_PER_PAGE := by omega
    have := hlb hle
    omega
  have hsucc : ∀ n, exactStart cfg (n + 1) = n * cfg.RECORDS_PER_PAGE + 1 := by
    intro n
    simp [exactStart]
  refine ⟨T, hT, hP, ?_, ?_, ?_, ?_, ?_, ?_⟩
  · intro n h1 h2
    exact (startRow_of_isLeast cfg T n ht hp' ⟨hmem, hlb⟩ h1 h2).2
  · intro fuel hfuel
    obtain ⟨st, hst, hreq, _⟩ := hrun fuel hfuel
    exact ⟨st, hst, hreq⟩
  · intro n h1
    obtain ⟨m, rfl⟩ : ∃ m, n = m + 1 := ⟨n - 1, by omega⟩
    simp only [hsucc, Nat.add_mul, Nat.one_mul]
    omega
  · intro n m h1 hnm
    obtain ⟨a, rfl⟩ : ∃ a, n = a + 1 := ⟨n - 1, by omega⟩
    obtain ⟨b, rfl⟩ : ∃ b, m = b + 1 := ⟨m - 1, by omega⟩
    simp only [hsucc]
    have hab : (a + 1) * cfg.RECORDS_PER_PAGE ≤ b * cfg.RECORDS_PER_PAGE :=
      Nat.mul_le_mul_right _ (by omega)
    rw [Nat.add_mul, Nat.one_mul] at hab
    omega
  · intro r hr1 hr2
    have hdiv := Nat.div_mul_le_self (r - 1) cfg.RECORDS_PER_PAGE
    have hmod := Nat.lt_div_mul_add (a := r - 1) (b := cfg.RECORDS_PER_PAGE) (by omega)
    refine ⟨(r - 1) / cfg.RECORDS_PER_PAGE + 1, ⟨Nat.le_add_left 1 _, ?_, ?_, ?_⟩, ?_⟩
    · have hlt : (r - 1) / cfg.RECORDS_PER_PAGE < T := by
        rw [Nat.div_lt_iff_lt_mul (Nat.lt_of_lt_of_le Nat.zero_lt_one hp)]
        omega
      omega
    · rw [hsucc]; omega
    · rw [hsucc]; omega
    · rintro n ⟨hn1, _, hlo, hhi⟩
      obtain ⟨a, rfl⟩ : ∃ a, n = a + 1 := ⟨n - 1, by omega⟩
      rw [hsucc] at hlo hhi
      have hq : (r - 1) / cfg.RECORDS_PER_PAGE = a :=
        Nat.div_eq_of_lt_le (by omega) (by rw [Nat.add_mul, Nat.one_mul]; omega)
      omega
  · unfold exactStart
    omega

theorem page_ranges_partition_witness :
    1 ≤ sourceConfig.TOTAL_RECORDS ∧ sourceConfig.TOTAL_RECORDS < 2 ^ 53 ∧
    1 ≤ sourceConfig.RECORDS_PER_PAGE ∧ sourceConfig.RECORDS_PER_PAGE < 2 ^ 53 ∧
    NeverPending sourceConfig (plainWorld secondPageFails).net ∧
    ∃ T : Nat, totalPages sourceConfig = .int T ∧ 1 ≤ T ∧
      (∀ n, 1 ≤ n → n ≤ T → startRow sourceConfig n = .int (exactStart sourceConfig n)) ∧
      (∀ fuel, T < fuel →
        ∃ st, getAllRecords fuel sourceConfig (plainWorld secondPageFails) none = some st ∧
          requestsOf st.trace = (List.range' 1 T).map
            (fun n => pageRequest sourceConfig (.int (exactStart sourceConfig n)))) ∧
      (∀ n, 1 ≤ n → exactStart sourceConfig (n + 1) =
        (exactStart sourceConfig n + sourceConfig.RECORDS_PER_PAGE - 1) + 1) ∧
      (∀ n m, 1 ≤ n → n < m →
        exactStart sourceConfig n + sourceConfig.RECORDS_PER_PAGE - 1 <
          exactStart sourceConfig m) ∧
      (∀ r, 1 ≤ r → r ≤ sourceConfig.TOTAL_RECORDS →
        ∃! n, 1 ≤ n ∧ n ≤ T ∧ exactStart sourceConfig n ≤ r ∧
          r ≤ exactStart sourceConfig n + sourceConfig.RECORDS_PER_PAGE - 1) ∧
      exactStart sourceConfig T ≤ sourceConfig.TOTAL_RECORDS :=
  ⟨by decide, by decide, by decide, by decide, neverPending_secondPageFails _,
    page_ranges_partition sourceConfig (plainWorld secondPageFails) none (by decide)
      (by decide) (by decide) (by decide) (neverPending_secondPageFails _)⟩

end FetchRecords
